import Mathlib

/-!
PyStructList: a Python list kept in step with a typed vector.

Shallow embedding of `cpp/csp/python/PyStructList_impl.h`.

A `PyStructList<StorageT>` is a Python list object (the part callers see, `front`)
that carries a reference to a `std::vector<StorageT>` living in the owning struct
(`vector`).  Every mutating method first calls the corresponding method of the
Python list and then repeats the change on the vector, converting Python values
with `fromPython`.

* Python values are an arbitrary type `V`, typed values an arbitrary type `T`.
* The Python list engine and the converter are collaborators of the file; the
  list methods with a fixed meaning (`append`, `insert`, `pop`, ...) are written
  out below, the ones whose result depends on the values (`sort`, rich comparison,
  slices), the converter and the `operator==` of the typed values are fields of
  `Engine`.
* A method returns an `Outcome`: it returned normally, it reported a Python
  exception (with the object as the method left it), or it ran into undefined
  behaviour (a violated `assert`, an out-of-range iterator, signed overflow).
* `int` is 32 bits wide, `Py_ssize_t` and `size_t` 64 bits.
-/

namespace PyStructListImpl

/-! ## Machine integers and outcomes -/

/-- Largest value of a C `int`. -/
def INT_MAX : Int := 2147483647

/-- Largest value of a `Py_ssize_t`. -/
def PY_SSIZE_T_MAX : Int := 9223372036854775807

/-- The conversion `( int ) x` of a 64-bit integer: the value modulo 2^32, taken in
`[-2^31, 2^31)`.  Also the initialisation `int sz = self -> vector.size()`. -/
def toInt (x : Int) : Int := (x + 2147483648) % 4294967296 - 2147483648

/-- Python exception kinds that the methods report. -/
inductive PyErr where
  | IndexError
  | TypeError
  | ValueError
  | OverflowError
  | MemoryError
deriving DecidableEq, Repr

/-- Result of running a method on an object of type `σ`. -/
inductive Outcome (σ ρ : Type) where
  /-- normal return with result `r`; the object is now `s` -/
  | ok (s : σ) (r : ρ)
  /-- a Python exception was reported (`NULL` or `-1` returned); the object is now `s` -/
  | error (e : PyErr) (s : σ)
  /-- undefined behaviour -/
  | undefined
deriving DecidableEq, Repr

/-- The `n` format unit of `PyArg_ParseTuple` and `PyNumber_AsSsize_t`: a Python
integer is accepted when it fits a `Py_ssize_t`. -/
def asSsize_t (i : Int) : Option Int :=
  if -PY_SSIZE_T_MAX - 1 ≤ i ∧ i ≤ PY_SSIZE_T_MAX then some i else none

/-! ## The Python list engine -/

section ListEngine

variable {V : Type}

/-- Insertion before position `p` of a sequence: `std::vector::insert( begin() + p, x )`,
and the element shift of `ins1` in the list engine. -/
def insertAt {α : Type} (l : List α) (p : Nat) (x : α) : List α :=
  l.take p ++ x :: l.drop p

/-- Python `PyList_Append`. -/
def PyList_Append (l : List V) (v : V) : List V := l ++ [v]

/-- Position at which `PyList_Insert` puts the new item: a negative index counts
from the end, and the result is clamped to `[0, n]`. -/
def PyList_Insert_pos (n : Int) (idx : Int) : Int :=
  let w := if idx < 0 then (if idx + n < 0 then 0 else idx + n) else idx
  if w > n then n else w

/-- Python `PyList_Insert`. -/
def PyList_Insert (l : List V) (idx : Int) (v : V) : List V :=
  insertAt l (PyList_Insert_pos l.length idx).toNat v

/-- Python `list.pop( index )`. -/
def list_pop (l : List V) (index : Int) : Except PyErr (V × List V) :=
  let n : Int := l.length
  if n = 0 then .error .IndexError
  else
    let index := if index < 0 then index + n else index
    if index < 0 ∨ index ≥ n then .error .IndexError
    else
      match l[index.toNat]? with
      | none => .error .IndexError
      | some v => .ok (v, l.eraseIdx index.toNat)

/-- Python `PyList_SetItem`: the C API takes the index as it is, without resolving
a negative one. -/
def PyList_SetItem (l : List V) (index : Int) (v : V) : Except PyErr (List V) :=
  if index < 0 ∨ index ≥ (l.length : Int) then .error .IndexError
  else .ok (l.set index.toNat v)

/-- Python `list.__delitem__( index )` with an integer index: a negative index
counts from the end. -/
def list_delitem (l : List V) (index : Int) : Except PyErr (List V) :=
  let n : Int := l.length
  let index := if index < 0 then index + n else index
  if index < 0 ∨ index ≥ n then .error .IndexError
  else .ok (l.eraseIdx index.toNat)

/-- Python `PyList_Reverse`. -/
def PyList_Reverse (l : List V) : List V := l.reverse

/-- Python `list.remove( value )`: deletes the first item that compares equal to
`value`, `ValueError` when there is none. -/
def list_remove (eq : V → V → Bool) : List V → V → Except PyErr (List V)
  | [], _ => .error .ValueError
  | x :: xs, v =>
    if eq x v then .ok xs
    else
      match list_remove eq xs v with
      | .ok xs' => .ok (x :: xs')
      | .error err => .error err

/-- Python `list.extend( iterable )`; `none` is an argument that cannot be iterated. -/
def list_extend (l : List V) (iterable : Option (List V)) : Except PyErr (List V) :=
  match iterable with
  | none => .error .TypeError
  | some xs => .ok (l ++ xs)

/-- Python `list.clear()`. -/
def list_clear (_l : List V) : List V := []

/-- Python `list.__imul__( n )`. -/
def list_inplace_repeat (l : List V) (n : Int) : Except PyErr (List V) :=
  if l.length = 0 ∨ n = 1 then .ok l
  else if n < 1 then .ok []
  else if (l.length : Int) > PY_SSIZE_T_MAX / n then .error .MemoryError
  else .ok (List.replicate n.toNat l).flatten

end ListEngine

/-- The parts of the collaborators whose result depends on the Python values.
`K` is the type of keyword arguments of `sort`, `S` the type of slice objects. -/
structure Engine (V T K S : Type) where
  /-- the converter `fromPython<ElemT>( value, field_type )`; `none` when it throws -/
  fromPython : V → Option T
  /-- the comparison `item == value` that `list.remove` applies -/
  eq : V → V → Bool
  /-- the comparison `a == b` of `StorageT` that `std::find` applies; it need not
  be reflexive (a `double` that is not a number differs from itself) -/
  storageEq : T → T → Bool
  /-- Python `list.sort( **kwargs )` -/
  sort : K → List V → Except PyErr (List V)
  /-- Python `list.__setitem__( slice, value )`; `none` is a value that cannot be iterated -/
  setSlice : S → Option (List V) → List V → Except PyErr (List V)
  /-- Python `list.__delitem__( slice )` -/
  delSlice : S → List V → Except PyErr (List V)

/-! ## The struct list -/

/-- The object `PyStructList<StorageT>`: the Python list it derives from and the
typed vector of the struct field it refers to. -/
structure PyStructList (V T : Type) where
  front : List V
  vector : List T
deriving DecidableEq, Repr

/-- The subscript `item` handed to `py_struct_list_ass_subscript`. -/
inductive Subscript (S : Type) where
  /-- an integer -/
  | index (i : Int)
  /-- a slice object -/
  | slice (s : S)
  /-- any other object -/
  | other

/-- A Python object handed over as `value`: `elem` is the object as an element of
the list, `items` the elements it yields when it is iterated (`none`: it cannot be
iterated). -/
structure PyArg (V : Type) where
  elem : V
  items : Option (List V)

section Methods

variable {V T K S : Type}

/-- The function `convertValue`. -/
def convertValue (e : Engine V T K S) (value : V) : Option T := e.fromPython value

/-- First position of a vector whose element `y` satisfies `y == x` for the
`operator==` of `StorageT` (`eq`), the size of the vector when there is none:
`std::find( begin(), end(), x ) - begin()`. -/
def std_find (eq : T → T → Bool) : List T → T → Nat
  | [], _ => 0
  | y :: ys, x => if eq y x then 0 else std_find eq ys x + 1

/-- The call `std::vector::resize( m )`: cut to `m` elements or fill up with
value-initialised ones. -/
def resize [Inhabited T] (vec : List T) (m : Nat) : List T :=
  vec.take m ++ List.replicate (m - vec.length) default

/-- The loop `for( size_t index = lo; index < hi; ++index )
{ value = PyList_GET_ITEM( self, index ); vec[ index ] = convertValue( self, value ); }`
with `k = hi - index` iterations left.  An exception of the converter leaves the
loop with `vec` as written so far. -/
def copyLoop (e : Engine V T K S) (front : List V) : Nat → Nat → List T → Outcome (List T) Unit
  | 0, _, vec => .ok vec ()
  | k + 1, index, vec =>
    match front[index]? with
    | none => .undefined
    | some value =>
      match convertValue e value with
      | none => .error .TypeError vec
      | some t =>
        if index < vec.length then copyLoop e front k (index + 1) (vec.set index t)
        else .undefined

/-- Modelled from the spec: the macros `CSP_BEGIN_METHOD`, `CSP_RETURN_NONE`,
`CSP_RETURN_INT` and `CSP_RETURN_NULL` come from `csp/python/InitHelper.h`, which
is not among the sources.  They enclose a method body in a `try` block; a C++
exception thrown inside (here: by the converter) is reported to the caller as a
failure of the method, and the object stays as it was when the exception was
thrown.  `catchConvert now value k` runs the rest `k` of the body with the converted
value, or reports the failure with the object as it is `now`. -/
def catchConvert (e : Engine V T K S) (now : PyStructList V T) (value : V)
    (k : T → Outcome (PyStructList V T) Unit) : Outcome (PyStructList V T) Unit :=
  match convertValue e value with
  | none => .error .TypeError now
  | some t => k t

/-- The method `append`. -/
def PyStructList_Append (e : Engine V T K S) (self : PyStructList V T) (value : V) :
    Outcome (PyStructList V T) Unit :=
  let front' := PyList_Append self.front value
  catchConvert e ⟨front', self.vector⟩ value fun t =>
    .ok ⟨front', self.vector ++ [t]⟩ ()

/-- The method `insert`. -/
def PyStructList_Insert (e : Engine V T K S) (self : PyStructList V T) (index : Int) (value : V) :
    Outcome (PyStructList V T) Unit :=
  match asSsize_t index with
  | none => .error .OverflowError self
  | some index =>
    let front' := PyList_Insert self.front index value
    let sz := toInt self.vector.length
    let index := if index < 0 then index + sz else index
    let it := max 0 (min sz (toInt index))
    catchConvert e ⟨front', self.vector⟩ value fun t =>
      .ok ⟨front', insertAt self.vector it.toNat t⟩ ()

/-- The method `pop`; `index` is the optional argument, `-1` when absent. -/
def PyStructList_Pop (self : PyStructList V T) (index : Option Int) :
    Outcome (PyStructList V T) V :=
  match asSsize_t (index.getD (-1)) with
  | none => .error .OverflowError self
  | some index =>
    match list_pop self.front index with
    | .error err => .error err self
    | .ok (result, front') =>
      let sz := toInt self.vector.length
      let index := if index < 0 then index + sz else index
      if index ≥ 0 ∧ index < sz then
        .ok ⟨front', self.vector.eraseIdx (toInt index).toNat⟩ result
      else .undefined

/-- The method `reverse`. -/
def PyStructList_Reverse (self : PyStructList V T) : Outcome (PyStructList V T) Unit :=
  .ok ⟨PyList_Reverse self.front, self.vector.reverse⟩ ()

/-- The method `sort`; `nargs` is the number of positional arguments. -/
def PyStructList_Sort (e : Engine V T K S) (self : PyStructList V T) (nargs : Nat) (kwargs : K) :
    Outcome (PyStructList V T) Unit :=
  if nargs > 0 then .error .TypeError self
  else
    match e.sort kwargs self.front with
    | .error err => .error err self
    | .ok front' =>
      let sz := self.vector.length
      match copyLoop e front' sz 0 self.vector with
      | .ok vec _ => .ok ⟨front', vec⟩ ()
      | .error err vec => .error err ⟨front', vec⟩
      | .undefined => .undefined

/-- The method `extend`. -/
def PyStructList_Extend [Inhabited T] (e : Engine V T K S) (self : PyStructList V T)
    (iterable : Option (List V)) : Outcome (PyStructList V T) Unit :=
  match list_extend self.front iterable with
  | .error err => .error err self
  | .ok front' =>
    let new_sz := front'.length
    let old_sz := self.vector.length
    let v := resize self.vector new_sz
    match copyLoop e front' (new_sz - old_sz) old_sz v with
    | .ok v' _ => .ok ⟨front', v'⟩ ()
    | .error err _ => .error err ⟨front', self.vector⟩
    | .undefined => .undefined

/-- The method `remove`. -/
def PyStructList_Remove (e : Engine V T K S) (self : PyStructList V T)
    (value : V) : Outcome (PyStructList V T) Unit :=
  match list_remove e.eq self.front value with
  | .error err => .error err self
  | .ok front' =>
    catchConvert e ⟨front', self.vector⟩ value fun t =>
      let it := std_find e.storageEq self.vector t
      if it < self.vector.length then .ok ⟨front', self.vector.eraseIdx it⟩ ()
      else .undefined

/-- The method `clear`. -/
def PyStructList_Clear (self : PyStructList V T) : Outcome (PyStructList V T) Unit :=
  .ok ⟨list_clear self.front, []⟩ ()

/-- The slot `sq_ass_item`; `value = none` is the null pointer (deletion). -/
def py_struct_list_ass_item (e : Engine V T K S) (self : PyStructList V T) (index : Int)
    (value : Option V) : Outcome (PyStructList V T) Unit :=
  let sz := toInt self.vector.length
  let index := if index < 0 then index + sz else index
  match value with
  | some v =>
    match PyList_SetItem self.front index v with
    | .error err => .error err self
    | .ok front' =>
      if index ≥ 0 ∧ index < sz then
        catchConvert e ⟨front', self.vector⟩ v fun t =>
          .ok ⟨front', self.vector.set index.toNat t⟩ ()
      else .undefined
  | none =>
    match list_delitem self.front index with
    | .error err => .error err self
    | .ok front' =>
      if index ≥ 0 ∧ index < sz then
        .ok ⟨front', self.vector.eraseIdx (toInt index).toNat⟩ ()
      else .undefined

/-- The loop of `py_struct_list_ass_subscript` that fills a fresh vector `v( sz )`
from the whole list. -/
def rebuild [Inhabited T] (e : Engine V T K S) (front : List V) : Outcome (List T) Unit :=
  let sz := front.length
  copyLoop e front sz 0 (resize [] sz)

/-- The slot `mp_ass_subscript`: `seq[ item ] = value`, and `del seq[ item ]` when
`value = none`. -/
def py_struct_list_ass_subscript [Inhabited T] (e : Engine V T K S) (self : PyStructList V T)
    (item : Subscript S) (value : Option (PyArg V)) : Outcome (PyStructList V T) Unit :=
  match item with
  | .other => .error .TypeError self
  | .index i =>
    match asSsize_t i with
    | none => .error .IndexError self
    | some index => py_struct_list_ass_item e self index (value.map PyArg.elem)
  | .slice s =>
    let result :=
      match value with
      | some v => e.setSlice s v.items self.front
      | none => e.delSlice s self.front
    match result with
    | .error err => .error err self
    | .ok front' =>
      match rebuild e front' with
      | .ok v _ => .ok ⟨front', v⟩ ()
      | .error err _ => .error err ⟨front', self.vector⟩
      | .undefined => .undefined

/-- The slot `sq_inplace_concat`: `seq += other`. -/
def py_struct_list_inplace_concat [Inhabited T] (e : Engine V T K S) (self : PyStructList V T)
    (other : Option (List V)) : Outcome (PyStructList V T) Unit :=
  PyStructList_Extend e self other

/-- The inner loop `for( int j = 0; j < sz; ++j ) vector[ i * sz + j ] = vector[ j ];`
with `k` iterations left; `none` is undefined behaviour (overflow of the `int`
index, or an index outside the vector). -/
def repeatInner (i sz : Int) : Nat → Int → List T → Option (List T)
  | 0, _, vec => some vec
  | k + 1, j, vec =>
    let idx := i * sz + j
    if idx > INT_MAX then none
    else
      match vec[j.toNat]? with
      | none => none
      | some x =>
        if idx.toNat < vec.length then repeatInner i sz k (j + 1) (vec.set idx.toNat x)
        else none

/-- The outer loop `for( int i = 1; i < n; ++i )` with `k` iterations left; `none`
is undefined behaviour (of the inner loop, or `++i` past `INT_MAX`). -/
def repeatOuter (sz n : Int) : Nat → Int → List T → Option (List T)
  | 0, _, vec => some vec
  | k + 1, i, vec =>
    if i < n then
      match repeatInner i sz sz.toNat 0 vec with
      | none => none
      | some vec' => if i + 1 > INT_MAX then none else repeatOuter sz n k (i + 1) vec'
    else some vec

/-- The slot `sq_inplace_repeat`: `seq *= n` with `n` a `Py_ssize_t`.  A negative
product `sz * n` (only with a wrapped `sz`) is an impossible size for `resize`,
whose exception the method reports. -/
def py_struct_list_inplace_repeat [Inhabited T] (self : PyStructList V T) (n : Int) :
    Outcome (PyStructList V T) Unit :=
  match list_inplace_repeat self.front n with
  | .error err => .error err self
  | .ok front' =>
    if n ≤ 0 then .ok ⟨front', []⟩ ()
    else
      let sz := toInt self.vector.length
      if sz * n < 0 then .error .MemoryError ⟨front', self.vector⟩
      else
        match repeatOuter sz n (n - 1).toNat 1 (resize self.vector (sz * n).toNat) with
        | none => .undefined
        | some vec => .ok ⟨front', vec⟩ ()

end Methods

/-! ## Consistency of the two views -/

section Consistency

variable {V T K S : Type}

/-- The two views agree: they have the same length and every element of `vector`
is the converted element of `front` at the same position. -/
def consistent (e : Engine V T K S) (st : PyStructList V T) : Prop :=
  st.front.length = st.vector.length ∧
    ∀ i, i < st.front.length → (st.front[i]?).bind e.fromPython = st.vector[i]?

/-- The size of the vector is one that `int sz = self -> vector.size()` holds
without loss. -/
def fitsInt (st : PyStructList V T) : Prop := (st.vector.length : Int) ≤ INT_MAX

end Consistency

/-! ## Sample engines

Two instances of the collaborators, used to run the methods on concrete lists. -/

/-- Python values of the sample engines: an `int`, a `float` whose value is the
integer `n` (such as `1.0`), a `str`. -/
inductive PyVal where
  | int (n : Int)
  | float (n : Int)
  | str (s : String)
deriving DecidableEq, Repr

/-- Numeric value of a Python number. -/
def PyVal.num : PyVal → Option Int
  | .int n => some n
  | .float n => some n
  | .str _ => none

/-- Python `a == b`: numbers compare by value across `int` and `float`, strings
with strings, and a number never equals a string. -/
def pyEq (a b : PyVal) : Bool :=
  match a, b with
  | .str s, .str t => decide (s = t)
  | .str _, _ => false
  | _, .str _ => false
  | x, y => decide (x.num = y.num)

/-- Python `a < b`; `none` when the two values cannot be ordered (`TypeError`). -/
def pyLt (a b : PyVal) : Option Bool :=
  match a, b with
  | .str s, .str t => some (decide (s < t))
  | .str _, _ => none
  | _, .str _ => none
  | x, y => some (decide (x.num.getD 0 < y.num.getD 0))

/-- Keyword arguments of `sort` in the sample engines: the `reverse` flag. -/
structure SortKw where
  reverse : Bool
deriving DecidableEq, Repr

/-- The order `a` not after `b` that the sample sort arranges by. -/
def pyLe (a b : PyVal) : Prop := pyLt b a ≠ some true

instance : DecidableRel pyLe := fun a b => inferInstanceAs (Decidable (pyLt b a ≠ some true))

/-- Python `list.sort( reverse = r )` on the sample values: a stable sort, also
with `reverse` (the list is reversed before and after); `TypeError` when two of
the items cannot be ordered. -/
def pySort (kw : SortKw) (l : List PyVal) : Except PyErr (List PyVal) :=
  if l.all (fun a => l.all (fun b => (pyLt a b).isSome)) then
    if kw.reverse then .ok (List.insertionSort pyLe l.reverse).reverse
    else .ok (List.insertionSort pyLe l)
  else .error .TypeError

/-- A slice `start:stop` with bounds that are not negative. -/
structure SimpleSlice where
  start : Nat
  stop : Nat
deriving DecidableEq, Repr

/-- Python `list.__setitem__( slice( start, stop ), value )`. -/
def pySetSlice (s : SimpleSlice) (value : Option (List PyVal)) (l : List PyVal) :
    Except PyErr (List PyVal) :=
  match value with
  | none => .error .TypeError
  | some xs => .ok (l.take s.start ++ xs ++ l.drop (max s.start s.stop))

/-- Python `list.__delitem__( slice( start, stop ) )`. -/
def pyDelSlice (s : SimpleSlice) (l : List PyVal) : Except PyErr (List PyVal) :=
  .ok (l.take s.start ++ l.drop (max s.start s.stop))

/-- Modelled from the spec: the converter `fromPython` (`csp/python/Conversions.h`)
is not among the sources; the spec describes it as a function that produces a
typed value or fails with a type error.  For the element type `int` it is taken
to accept a Python `int` that fits 64 bits and to fail on every other value. -/
def intFromPython : PyVal → Option Int
  | .int n => if -PY_SSIZE_T_MAX - 1 ≤ n ∧ n ≤ PY_SSIZE_T_MAX then some n else none
  | _ => none

/-- The sample engine for a list field of element type `int`. -/
def intEngine : Engine PyVal Int SortKw SimpleSlice where
  fromPython := intFromPython
  eq := pyEq
  storageEq := fun a b => decide (a = b)
  sort := pySort
  setSlice := pySetSlice
  delSlice := pyDelSlice

/-- Number of binary digits of `a`, counted in at most `k` halvings. -/
def bitLength : Nat → Nat → Nat
  | 0, _ => 0
  | k + 1, a => if a = 0 then 0 else bitLength k (a / 2) + 1

/-- Nearest integer with at most 53 significant bits, ties to the even one: the
value of the `double` a Python `int` converts to. -/
def roundDouble (n : Int) : Int :=
  let a := n.natAbs
  let drop := bitLength a a - 53
  let q := a / 2 ^ drop
  let r := a % 2 ^ drop
  let half := 2 ^ drop / 2
  let q' := if drop = 0 then q else if r > half ∨ (r = half ∧ q % 2 = 1) then q + 1 else q
  n.sign * ((q' * 2 ^ drop : Nat) : Int)

/-- Modelled from the spec: the converter for the element type `float`, likewise
not among the sources.  A Python `float` converts to itself, a Python `int` to the
nearest `double`, a `str` fails; typed values are the (integral) values of the
doubles. -/
def floatFromPython : PyVal → Option Int
  | .int n => some (roundDouble n)
  | .float n => some n
  | .str _ => none

/-- The sample engine for a list field of element type `float`; the doubles it
handles are numbers, which `operator==` compares by value. -/
def floatEngine : Engine PyVal Int SortKw SimpleSlice where
  fromPython := floatFromPython
  eq := pyEq
  storageEq := fun a b => decide (a = b)
  sort := pySort
  setSlice := pySetSlice
  delSlice := pyDelSlice

/-! ## Auxiliary facts -/

section Aux

variable {V T K S : Type}

theorem toInt_of_fits (x : Int) (h1 : -2147483648 ≤ x) (h2 : x ≤ 2147483647) : toInt x = x := by
  unfold toInt; omega

theorem toInt_le_self (x : Int) (h : 0 ≤ x) : toInt x ≤ x := by
  unfold toInt; omega

theorem asSsize_t_eq_some (i j : Int) (h : asSsize_t i = some j) : j = i := by
  unfold asSsize_t at h
  split at h
  · exact (Option.some.inj h).symm
  · exact absurd h (by simp)

theorem consistent_iff_map (e : Engine V T K S) (st : PyStructList V T) :
    consistent e st ↔ st.front.map e.fromPython = st.vector.map some := by
  constructor
  · rintro ⟨hlen, h⟩
    apply List.ext_getElem?
    intro i
    rw [List.getElem?_map, List.getElem?_map]
    by_cases hi : i < st.front.length
    · have := h i hi
      rw [List.getElem?_eq_getElem hi, List.getElem?_eq_getElem (hlen ▸ hi)] at this
      rw [List.getElem?_eq_getElem hi, List.getElem?_eq_getElem (hlen ▸ hi)]
      simpa using this
    · have h1 : st.front[i]? = none := List.getElem?_eq_none (by omega)
      have h2 : st.vector[i]? = none := List.getElem?_eq_none (by omega)
      simp [h1, h2]
  · intro h
    have hlen : st.front.length = st.vector.length := by
      have := congrArg List.length h
      simpa using this
    refine ⟨hlen, fun i hi => ?_⟩
    have := congrArg (fun l => l[i]?) h
    simp only [List.getElem?_map] at this
    rw [List.getElem?_eq_getElem hi] at this ⊢
    rw [List.getElem?_eq_getElem (by omega : i < st.vector.length)] at this ⊢
    simp only [Option.map_some', Option.some.injEq] at this
    simpa using this

end Aux

/-! ## Index handling of `insert`, `pop`, item assignment and item deletion -/

section Indices

variable {V T K S : Type}

/-- C1: the consistency of the two views is not kept by every successful
operation.  On the consistent list `[1]` of element type `int` the call
`insert( 2**32, 2 )` returns normally; the list engine clamps the index and
appends, while the vector position `( int ) index` is `0`, so the value is put
first in the vector and the views disagree afterwards. -/
theorem insert_past_int_range_breaks_consistency :
    consistent intEngine ⟨[.int 1], [1]⟩ ∧
    PyStructList_Insert intEngine ⟨[.int 1], [1]⟩ 4294967296 (.int 2)
      = .ok ⟨[.int 1, .int 2], [2, 1]⟩ () ∧
    ¬ consistent intEngine ⟨[.int 1, .int 2], [2, 1]⟩ := by
  refine ⟨?_, by decide, ?_⟩
  · rw [consistent_iff_map]; decide
  · rw [consistent_iff_map]; decide

/-- C2: for the index `2**31`, which `insert` accepts, the position in `front`
and the position in `vector` differ.  On the consistent list `[10, 20]` the
position `p = min( n, max( 0, i ) )` of the claim is `2` and `front` gets the value
there, but `( int ) index` is negative and the vector gets the converted value at
position `0`. -/
theorem insert_index_truncated_to_int :
    consistent intEngine ⟨[.int 10, .int 20], [10, 20]⟩ ∧
    asSsize_t 2147483648 = some 2147483648 ∧
    min (2 : Int) (max 0 (if (2147483648 : Int) ≥ 0 then 2147483648 else 2147483648 + 2)) = 2 ∧
    PyStructList_Insert intEngine ⟨[.int 10, .int 20], [10, 20]⟩ 2147483648 (.int 5)
      = .ok ⟨insertAt [.int 10, .int 20] 2 (.int 5), insertAt [10, 20] 0 5⟩ () ∧
    insertAt [(10 : Int), 20] 0 5 ≠ insertAt [10, 20] 2 5 := by
  refine ⟨?_, by decide, by decide, by decide, by decide⟩
  rw [consistent_iff_map]; decide

/-- C3: deleting the item at index `-2` of the consistent one-element list `[1]`
(`del seq[-2]`, with `-2 < -n`) does not fail with a range error.  The slot adds
the size to the index and hands `-1` to `list.__delitem__`, which resolves the
negative index once more and deletes the last item of `front`; the assertion
`index >= 0` on the vector side is then violated. -/
theorem del_item_below_range_reaches_assert :
    consistent intEngine ⟨[.int 1], [1]⟩ ∧
    (-2 : Int) < -(([PyVal.int 1].length : Nat) : Int) ∧
    list_delitem [PyVal.int 1] (-2 + toInt 1) = .ok [] ∧
    py_struct_list_ass_subscript intEngine ⟨[.int 1], [1]⟩ (.index (-2)) none = .undefined := by
  refine ⟨?_, by decide, by rfl, by decide⟩
  rw [consistent_iff_map]; decide

/-- C4: on a consistent list of length `n`, `pop( i )` and `seq[ i ] = v` with
`i < -n` or `i >= n` report an error and leave the object as it was; so does
`pop()` on an empty list.  The error is `IndexError`, except that `pop` reports
`OverflowError` for an index that does not fit `Py_ssize_t`. -/
theorem pop_and_assignment_out_of_range_fail [Inhabited T] (e : Engine V T K S) (st : PyStructList V T)
    (i : Int) (v : PyArg V) (hc : consistent e st)
    (hi : i < -(st.front.length : Int) ∨ i ≥ st.front.length) :
    PyStructList_Pop st (some i)
      = .error (if asSsize_t i = none then .OverflowError else .IndexError) st ∧
    (st.front = [] → PyStructList_Pop st none = .error .IndexError st) ∧
    py_struct_list_ass_subscript e st (.index i) (some v) = .error .IndexError st := by
  obtain ⟨hlen, -⟩ := hc
  refine ⟨?_, ?_, ?_⟩
  · unfold PyStructList_Pop
    simp only [Option.getD_some]
    cases h : asSsize_t i with
    | none => simp
    | some j =>
      have hj := asSsize_t_eq_some i j h
      subst hj
      have hpop : list_pop st.front j = .error .IndexError := by
        unfold list_pop
        simp only
        split
        · rfl
        · rw [if_pos]
          split <;> omega
      simp [hpop]
  · intro hnil
    simp [PyStructList_Pop, hnil, asSsize_t, PY_SSIZE_T_MAX, list_pop]
  · unfold py_struct_list_ass_subscript
    simp only
    cases h : asSsize_t i with
    | none => rfl
    | some j =>
      have hj := asSsize_t_eq_some i j h
      subst hj
      simp only [Option.map_some']
      unfold py_struct_list_ass_item
      have hsz := toInt_le_self (st.vector.length : Int) (by omega)
      have hset : PyList_SetItem st.front (if j < 0 then j + toInt st.vector.length else j) v.elem
          = .error .IndexError := by
        unfold PyList_SetItem
        rw [if_pos]
        split <;> omega
      simp only [hset]

/-- Witness for `pop_and_assignment_out_of_range_fail`: index `-2` on the
consistent list `[1]`. -/
theorem pop_and_assignment_out_of_range_fail_witness :
    consistent intEngine ⟨[.int 1], [1]⟩ ∧
    PyStructList_Pop (⟨[.int 1], [1]⟩ : PyStructList PyVal Int) (some (-2))
      = .error .IndexError ⟨[.int 1], [1]⟩ ∧
    py_struct_list_ass_subscript intEngine ⟨[.int 1], [1]⟩ (.index (-2)) (some ⟨.int 7, none⟩)
      = .error .IndexError ⟨[.int 1], [1]⟩ :=
  have hc : consistent intEngine ⟨[.int 1], [1]⟩ := by
    rw [consistent_iff_map]; decide
  have h := pop_and_assignment_out_of_range_fail intEngine ⟨[.int 1], [1]⟩ (-2)
    ⟨.int 7, none⟩ hc (by decide)
  ⟨hc, h.1, h.2.2⟩

/-- The violated assertion of item deletion is met for every index in `[-2n, -n)`
of a consistent list whose size fits an `int`: the list engine resolves the
half-resolved index a second time and deletes an item of `front`. -/
theorem del_item_double_resolution [Inhabited T] (e : Engine V T K S) (st : PyStructList V T)
    (i : Int) (hc : consistent e st) (hfit : fitsInt st)
    (h1 : -2 * (st.front.length : Int) ≤ i) (h2 : i < -(st.front.length : Int)) :
    list_delitem st.front (i + st.front.length)
      = .ok (st.front.eraseIdx (i + 2 * st.front.length).toNat) ∧
    py_struct_list_ass_subscript e st (.index i) none = .undefined := by
  obtain ⟨hlen, -⟩ := hc
  unfold fitsInt INT_MAX at hfit
  have hdel : list_delitem st.front (i + st.front.length)
      = .ok (st.front.eraseIdx (i + 2 * st.front.length).toNat) := by
    have hres : (if i + (st.front.length : Int) < 0 then i + st.front.length + st.front.length
        else i + st.front.length) = i + 2 * st.front.length := by
      rw [if_pos (by omega)]; ring
    unfold list_delitem
    simp only [hres]
    rw [if_neg (by omega)]
  refine ⟨hdel, ?_⟩
  have hfits : asSsize_t i = some i := by
    unfold asSsize_t PY_SSIZE_T_MAX
    rw [if_pos]
    omega
  have hsz : toInt (st.vector.length : Int) = st.front.length := by
    rw [toInt_of_fits _ (by omega) (by omega)]; omega
  unfold py_struct_list_ass_subscript
  simp only [hfits, Option.map_none']
  unfold py_struct_list_ass_item
  simp only [hsz]
  rw [if_pos (by omega)]
  simp only [hdel]
  rw [if_neg (by omega)]

/-- Within the range of `int` the two positions of `insert` agree: on a consistent
list whose size fits an `int`, for a convertible value and an index whose resolved
value `( int ) index` keeps, both views get the value at the list engine's
position, and the list stays consistent. -/
theorem insert_in_int_range (e : Engine V T K S) (st : PyStructList V T) (i : Int) (v : V)
    (t : T) (hc : consistent e st) (hfit : fitsInt st) (hv : e.fromPython v = some t)
    (hlo : -2147483648 ≤ (if i < 0 then i + st.front.length else i))
    (hhi : (if i < 0 then i + st.front.length else i) ≤ INT_MAX) :
    PyStructList_Insert e st i v
      = .ok ⟨insertAt st.front (PyList_Insert_pos st.front.length i).toNat v,
          insertAt st.vector (PyList_Insert_pos st.front.length i).toNat t⟩ () ∧
    consistent e ⟨insertAt st.front (PyList_Insert_pos st.front.length i).toNat v,
      insertAt st.vector (PyList_Insert_pos st.front.length i).toNat t⟩ := by
  have hlen := hc.1
  rw [consistent_iff_map] at hc
  unfold fitsInt INT_MAX at hfit
  unfold INT_MAX at hhi
  have hfits : asSsize_t i = some i := by
    unfold asSsize_t PY_SSIZE_T_MAX
    rw [if_pos]
    split at hlo <;> split at hhi <;> omega
  have hsz : toInt (st.vector.length : Int) = st.front.length := by
    rw [toInt_of_fits _ (by omega) (by omega)]; omega
  have hidx : toInt (if i < 0 then i + st.front.length else i)
      = (if i < 0 then i + st.front.length else i) := toInt_of_fits _ hlo hhi
  have hpos : max 0 (min (st.front.length : Int)
      (if i < 0 then i + (st.front.length : Int) else i)) = PyList_Insert_pos st.front.length i := by
    unfold PyList_Insert_pos
    simp only
    split <;> split <;> (try split) <;> omega
  refine ⟨?_, ?_⟩
  · unfold PyStructList_Insert
    simp only [hfits, hsz, hidx, hpos, catchConvert, convertValue, hv, PyList_Insert]
  · rw [consistent_iff_map]
    simp only [insertAt, List.map_append, List.map_cons, List.map_take, List.map_drop, hc, hv]

end Indices

/-! ## Conversion failures -/

section ConversionFailure

variable {V T K S : Type}

theorem length_resize [Inhabited T] (vec : List T) (m : Nat) : (resize vec m).length = m := by
  simp only [resize, List.length_append, List.length_take, List.length_replicate]
  omega

/-- The copy loop stops with an exception when one of the list items it visits
cannot be converted. -/
theorem copyLoop_error (e : Engine V T K S) (front : List V) :
    ∀ (k index : Nat) (vec : List T), index + k ≤ front.length → index + k ≤ vec.length →
      (∃ j x, index ≤ j ∧ j < index + k ∧ front[j]? = some x ∧ e.fromPython x = none) →
      ∃ vec', copyLoop e front k index vec = .error .TypeError vec' := by
  intro k
  induction k with
  | zero =>
    rintro index vec - - ⟨j, x, h1, h2, -, -⟩
    omega
  | succ k ih =>
    rintro index vec hf hv ⟨j, x, h1, h2, hx, hnone⟩
    unfold copyLoop
    have hidx : index < front.length := by omega
    rw [List.getElem?_eq_getElem hidx]
    simp only [convertValue]
    cases hconv : e.fromPython front[index] with
    | none => exact ⟨vec, rfl⟩
    | some t =>
      simp only
      rw [if_pos (by omega)]
      apply ih
      · omega
      · rw [List.length_set]; omega
      · refine ⟨j, x, ?_, by omega, hx, hnone⟩
        rcases Nat.lt_or_ge index j with h | h
        · omega
        · have hji : j = index := by omega
          subst hji
          rw [List.getElem?_eq_getElem hidx] at hx
          rw [Option.some.inj hx] at hconv
          rw [hconv] at hnone
          exact absurd hnone (by simp)

/-- C5, as the claim states it, fails when `vector` is longer than `front`.  Two
`remove` calls whose argument equals an item but cannot be converted (`1.0`, `2.0`)
take the consistent list `[1, 2, 3]` to `front = [3]`, `vector = [1, 2, 3]`.
Extending by the unconvertible `"x"` then returns normally: no index lies between
the old size of the vector and the new length of the list, so nothing is
converted, and `resize` cuts the vector to two elements. -/
theorem extend_unconvertible_succeeds_when_vector_longer :
    consistent intEngine ⟨[.int 1, .int 2, .int 3], [1, 2, 3]⟩ ∧
    PyStructList_Remove intEngine ⟨[.int 1, .int 2, .int 3], [1, 2, 3]⟩ (.float 1)
      = .error .TypeError ⟨[.int 2, .int 3], [1, 2, 3]⟩ ∧
    PyStructList_Remove intEngine ⟨[.int 2, .int 3], [1, 2, 3]⟩ (.float 2)
      = .error .TypeError ⟨[.int 3], [1, 2, 3]⟩ ∧
    intEngine.fromPython (.str "x") = none ∧
    PyStructList_Extend intEngine ⟨[.int 3], [1, 2, 3]⟩ (some [.str "x"])
      = .ok ⟨[.int 3, .str "x"], [1, 2]⟩ () := by
  refine ⟨?_, by decide, by decide, by decide, by decide⟩
  rw [consistent_iff_map]; decide

/-- C5, amended: when `vector` is longer than `front` by at most `k` elements (in
particular in every consistent state) and the iterable yields an unconvertible
element at position `k`, `extend` reports an error and `vector` is what it was
before the call; `front` has grown by the elements of the iterable. -/
theorem extend_failure_keeps_vector [Inhabited T] (e : Engine V T K S) (st : PyStructList V T)
    (xs : List V) (k : Nat) (v : V) (hk : xs[k]? = some v) (hv : e.fromPython v = none)
    (hlen : st.vector.length ≤ st.front.length + k) :
    PyStructList_Extend e st (some xs) = .error .TypeError ⟨st.front ++ xs, st.vector⟩ := by
  have hklt : k < xs.length := by
    by_contra hcon
    rw [List.getElem?_eq_none (by omega)] at hk
    exact absurd hk (by simp)
  unfold PyStructList_Extend
  simp only [list_extend, List.length_append]
  obtain ⟨vec', hloop⟩ := copyLoop_error e (st.front ++ xs)
    (st.front.length + xs.length - st.vector.length) st.vector.length
    (resize st.vector (st.front.length + xs.length))
    (by rw [List.length_append]; omega) (by rw [length_resize]; omega)
    ⟨st.front.length + k, v, by omega, by omega, by
      rw [List.getElem?_append_right (by omega)]
      simpa using hk, hv⟩
  rw [hloop]

/-- Witness for `extend_failure_keeps_vector`: extending the consistent list `[1]`
by `[2, "x", 3]`. -/
theorem extend_failure_keeps_vector_witness :
    [PyVal.int 2, .str "x", .int 3][1]? = some (PyVal.str "x") ∧
    intEngine.fromPython (.str "x") = none ∧
    PyStructList_Extend intEngine ⟨[.int 1], [1]⟩ (some [.int 2, .str "x", .int 3])
      = .error .TypeError ⟨[.int 1] ++ [.int 2, .str "x", .int 3], [1]⟩ :=
  ⟨by rfl, by rfl,
    extend_failure_keeps_vector intEngine ⟨[.int 1], [1]⟩ [.int 2, .str "x", .int 3] 1 (.str "x")
      (by rfl) (by rfl) (by decide)⟩

/-- C6, as the claim states it, fails: appending the unconvertible `"x"` to the
consistent list `[1]` reports an error, but `front` keeps the new item, so the
two views differ in length afterwards. -/
theorem append_failure_changes_front :
    consistent intEngine ⟨[.int 1], [1]⟩ ∧
    intEngine.fromPython (.str "x") = none ∧
    PyStructList_Append intEngine ⟨[.int 1], [1]⟩ (.str "x")
      = .error .TypeError ⟨[.int 1, .str "x"], [1]⟩ ∧
    [PyVal.int 1, .str "x"] ≠ [.int 1] ∧
    ¬ consistent intEngine ⟨[.int 1, .str "x"], [1]⟩ := by
  refine ⟨?_, by decide, by decide, by decide, ?_⟩
  · rw [consistent_iff_map]; decide
  · rw [consistent_iff_map]; decide

/-- C6, amended: on a consistent list whose size fits an `int`, with a value `v`
that cannot be converted, `append( v )`, `insert( j, v )` and the in-range
assignment `seq[ i ] = v` report an error and leave `vector` as it was, while
`front` keeps the change the list engine made: `v` appended, `v` inserted at the
engine's position, the item at the resolved index replaced by `v`.  (`insert` with
an index that does not fit `Py_ssize_t` is rejected before any change.) -/
theorem failed_conversion_keeps_vector_and_front_change [Inhabited T] (e : Engine V T K S)
    (st : PyStructList V T) (v : PyArg V) (i j : Int)
    (hc : consistent e st) (hfit : fitsInt st) (hv : e.fromPython v.elem = none)
    (hi : -(st.front.length : Int) ≤ i ∧ i < st.front.length) :
    PyStructList_Append e st v.elem = .error .TypeError ⟨st.front ++ [v.elem], st.vector⟩ ∧
    PyStructList_Insert e st j v.elem
      = (if asSsize_t j = none then .error .OverflowError st
         else .error .TypeError ⟨PyList_Insert st.front j v.elem, st.vector⟩) ∧
    py_struct_list_ass_subscript e st (.index i) (some v)
      = .error .TypeError
          ⟨st.front.set (if i < 0 then i + st.front.length else i).toNat v.elem, st.vector⟩ := by
  obtain ⟨hlen, -⟩ := hc
  unfold fitsInt INT_MAX at hfit
  refine ⟨?_, ?_, ?_⟩
  · simp [PyStructList_Append, catchConvert, convertValue, hv, PyList_Append]
  · unfold PyStructList_Insert
    cases h : asSsize_t j with
    | none => simp
    | some j' =>
      have hj := asSsize_t_eq_some j j' h
      subst hj
      simp [catchConvert, convertValue, hv]
  · have hfits : asSsize_t i = some i := by
      unfold asSsize_t PY_SSIZE_T_MAX
      rw [if_pos]
      omega
    have hsz : toInt (st.vector.length : Int) = st.front.length := by
      rw [toInt_of_fits _ (by omega) (by omega)]; omega
    unfold py_struct_list_ass_subscript
    simp only [hfits, Option.map_some']
    unfold py_struct_list_ass_item
    simp only [hsz]
    have hset : PyList_SetItem st.front (if i < 0 then i + st.front.length else i) v.elem
        = .ok (st.front.set (if i < 0 then i + st.front.length else i).toNat v.elem) := by
      unfold PyList_SetItem
      rw [if_neg]
      split <;> omega
    simp only [hset]
    rw [if_pos (by split <;> omega)]
    simp [catchConvert, convertValue, hv]

/-- Witness for `failed_conversion_keeps_vector_and_front_change`: the value `"x"`
on the consistent list `[1, 2]`, with `insert( 0, "x" )` and `seq[ -1 ] = "x"`. -/
theorem failed_conversion_keeps_vector_and_front_change_witness :
    consistent intEngine ⟨[.int 1, .int 2], [1, 2]⟩ ∧
    PyStructList_Append intEngine ⟨[.int 1, .int 2], [1, 2]⟩ (.str "x")
      = .error .TypeError ⟨[.int 1, .int 2, .str "x"], [1, 2]⟩ ∧
    PyStructList_Insert intEngine ⟨[.int 1, .int 2], [1, 2]⟩ 0 (.str "x")
      = .error .TypeError ⟨[.str "x", .int 1, .int 2], [1, 2]⟩ ∧
    py_struct_list_ass_subscript intEngine ⟨[.int 1, .int 2], [1, 2]⟩ (.index (-1))
        (some ⟨.str "x", none⟩)
      = .error .TypeError ⟨[.int 1, .str "x"], [1, 2]⟩ :=
  have hc : consistent intEngine ⟨[.int 1, .int 2], [1, 2]⟩ := by
    rw [consistent_iff_map]; decide
  ⟨hc, failed_conversion_keeps_vector_and_front_change intEngine ⟨[.int 1, .int 2], [1, 2]⟩
    ⟨.str "x", none⟩ (-1) 0 hc (by unfold fitsInt; decide) (by rfl) (by decide)⟩

end ConversionFailure

/-! ## Rebuilding the vector: `sort` -/

section Rebuild

variable {V T K S : Type}

/-- In a list whose items convert to `conv`, the item at a position converts to
the element of `conv` at that position. -/
theorem converted_getElem? (e : Engine V T K S) (front : List V) (conv : List T)
    (hconv : front.map e.fromPython = conv.map some) (index : Nat) (x : V)
    (hx : front[index]? = some x) : ∃ t, e.fromPython x = some t ∧ conv[index]? = some t := by
  have h := congrArg (fun l => l[index]?) hconv
  simp only [List.getElem?_map, hx, Option.map_some'] at h
  cases hc : conv[index]? with
  | none => rw [hc] at h; exact absurd h (by simp)
  | some t =>
    rw [hc] at h
    simp only [Option.map_some', Option.some.injEq] at h
    exact ⟨t, h, rfl⟩

/-- When every item the copy loop visits can be converted, the loop ends normally
and has overwritten exactly the positions `index, ..., index + k - 1` with the
converted items. -/
theorem copyLoop_ok (e : Engine V T K S) (front : List V) (conv : List T)
    (hconv : front.map e.fromPython = conv.map some) :
    ∀ (k index : Nat) (vec : List T), index + k ≤ front.length → index + k ≤ vec.length →
      ∃ r, copyLoop e front k index vec = .ok r () ∧ r.length = vec.length ∧
        ∀ j, r[j]? = if index ≤ j ∧ j < index + k then conv[j]? else vec[j]? := by
  intro k
  induction k with
  | zero =>
    intro index vec _ _
    refine ⟨vec, rfl, rfl, fun j => ?_⟩
    rw [if_neg (by omega)]
  | succ k ih =>
    intro index vec hf hv
    unfold copyLoop
    have hidx : index < front.length := by omega
    obtain ⟨t, ht, hct⟩ := converted_getElem? e front conv hconv index front[index]
      (List.getElem?_eq_getElem hidx)
    rw [List.getElem?_eq_getElem hidx]
    simp only [convertValue, ht]
    rw [if_pos (by omega)]
    obtain ⟨r, hr, hlen, hget⟩ := ih (index + 1) (vec.set index t) (by omega)
      (by rw [List.length_set]; omega)
    refine ⟨r, hr, by rw [hlen, List.length_set], fun j => ?_⟩
    rw [hget j, List.getElem?_set]
    by_cases h1 : index = j
    · subst h1
      rw [if_neg (by omega), if_pos rfl, if_pos (by omega), if_pos (by omega), hct]
    · rw [if_neg h1]
      by_cases h2 : index + 1 ≤ j ∧ j < index + 1 + k
      · rw [if_pos h2, if_pos (by omega)]
      · rw [if_neg h2, if_neg (by omega)]

/-- A full pass of the copy loop over a vector as long as the list yields the
converted list. -/
theorem copyLoop_full (e : Engine V T K S) (front : List V) (conv vec : List T)
    (hconv : front.map e.fromPython = conv.map some) (hlen : vec.length = front.length) :
    copyLoop e front vec.length 0 vec = .ok conv () := by
  have hcl : conv.length = front.length := by
    have := congrArg List.length hconv
    simpa using this.symm
  obtain ⟨r, hr, hrl, hget⟩ := copyLoop_ok e front conv hconv vec.length 0 vec (by omega) (by omega)
  rw [hr]
  have : r = conv := by
    apply List.ext_getElem?
    intro j
    rw [hget j]
    by_cases h : j < vec.length
    · rw [if_pos (by omega)]
    · rw [if_neg (by omega), List.getElem?_eq_none (by omega), List.getElem?_eq_none (by omega)]
  rw [this]

/-- A permutation of a list whose items can all be converted converts to a
list as well. -/
theorem converted_of_perm (e : Engine V T K S) (l l' : List V) (conv : List T)
    (hconv : l.map e.fromPython = conv.map some) (hperm : l'.Perm l) :
    ∃ conv' : List T, l'.map e.fromPython = conv'.map some := by
  have hall : ∀ x ∈ l, ∃ t, e.fromPython x = some t := by
    intro x hx
    obtain ⟨n, hn⟩ := List.getElem?_of_mem hx
    obtain ⟨t, ht, -⟩ := converted_getElem? e l conv hconv n x hn
    exact ⟨t, ht⟩
  have hall' : ∀ x ∈ l', ∃ t, e.fromPython x = some t := fun x hx => hall x (hperm.mem_iff.1 hx)
  clear hall hconv hperm
  induction l' with
  | nil => exact ⟨[], rfl⟩
  | cons a as ih =>
    obtain ⟨t, ht⟩ := hall' a (List.mem_cons_self a as)
    obtain ⟨c, hc⟩ := ih (fun x hx => hall' x (List.mem_cons_of_mem a hx))
    exact ⟨t :: c, by simp [ht, hc]⟩

/-- C8: on a consistent list, when the list engine sorts `front` into the
arrangement `sorted` (a permutation of the old `front`) under the given keyword
arguments, among them the `reverse` flag, `sort` returns normally, `front` is
`sorted`, and the views are consistent again: `vector[ i ]` is the converted
`sorted[ i ]` for every `i`. -/
theorem sort_rebuilds_vector (e : Engine V T K S) (st : PyStructList V T) (kwargs : K)
    (sorted : List V) (hc : consistent e st) (hsort : e.sort kwargs st.front = .ok sorted)
    (hperm : sorted.Perm st.front) :
    ∃ vec, PyStructList_Sort e st 0 kwargs = .ok ⟨sorted, vec⟩ () ∧
      consistent e ⟨sorted, vec⟩ := by
  rw [consistent_iff_map] at hc
  obtain ⟨conv, hconv⟩ := converted_of_perm e st.front sorted st.vector hc hperm
  have hlen : st.vector.length = sorted.length := by
    have h1 := congrArg List.length hc
    have h2 := hperm.length_eq
    simp only [List.length_map] at h1
    omega
  refine ⟨conv, ?_, ?_⟩
  · unfold PyStructList_Sort
    simp only [hsort, copyLoop_full e sorted conv st.vector hconv hlen]
    simp
  · rw [consistent_iff_map]
    exact hconv

/-- Witness for `sort_rebuilds_vector`: the list `[3, 1, 2]` of element type `int`
sorts to `[1, 2, 3]` in both views, and with `reverse = True` to `[3, 2, 1]` in
both views. -/
theorem sort_rebuilds_vector_witness :
    consistent intEngine ⟨[.int 3, .int 1, .int 2], [3, 1, 2]⟩ ∧
    (∃ vec, PyStructList_Sort intEngine ⟨[.int 3, .int 1, .int 2], [3, 1, 2]⟩ 0 ⟨false⟩
        = .ok ⟨[.int 1, .int 2, .int 3], vec⟩ () ∧
      consistent intEngine ⟨[.int 1, .int 2, .int 3], vec⟩) ∧
    PyStructList_Sort intEngine ⟨[.int 3, .int 1, .int 2], [3, 1, 2]⟩ 0 ⟨false⟩
      = .ok ⟨[.int 1, .int 2, .int 3], [1, 2, 3]⟩ () ∧
    (∃ vec, PyStructList_Sort intEngine ⟨[.int 3, .int 1, .int 2], [3, 1, 2]⟩ 0 ⟨true⟩
        = .ok ⟨[.int 3, .int 2, .int 1], vec⟩ () ∧
      consistent intEngine ⟨[.int 3, .int 2, .int 1], vec⟩) ∧
    PyStructList_Sort intEngine ⟨[.int 3, .int 1, .int 2], [3, 1, 2]⟩ 0 ⟨true⟩
      = .ok ⟨[.int 3, .int 2, .int 1], [3, 2, 1]⟩ () :=
  have hc : consistent intEngine ⟨[.int 3, .int 1, .int 2], [3, 1, 2]⟩ := by
    rw [consistent_iff_map]; decide
  ⟨hc,
    sort_rebuilds_vector intEngine ⟨[.int 3, .int 1, .int 2], [3, 1, 2]⟩ ⟨false⟩
      [.int 1, .int 2, .int 3] hc (by rfl) (by decide),
    by decide,
    sort_rebuilds_vector intEngine ⟨[.int 3, .int 1, .int 2], [3, 1, 2]⟩ ⟨true⟩
      [.int 3, .int 2, .int 1] hc (by rfl) (by decide),
    by decide⟩

end Rebuild

/-! ## `remove` -/

section Remove

variable {V T K S : Type}

theorem map_eraseIdx_comm {α β : Type} (g : α → β) :
    ∀ (l : List α) (p : Nat), (l.eraseIdx p).map g = (l.map g).eraseIdx p := by
  intro l
  induction l with
  | nil => intro p; rfl
  | cons a as ih =>
    intro p
    cases p with
    | zero => rfl
    | succ p => simp only [List.eraseIdx_cons_succ, List.map_cons, ih p]

/-- When, for the items up to and including the first one equal to `v`, the
`operator==` of the typed values answers for the converted item as list equality
answers for the item, the list engine and `std::find` stop at the same position. -/
theorem remove_positions (e : Engine V T K S) (v : V) (t : T) :
    ∀ (f : List V) (b : List T), f.map e.fromPython = b.map some →
      (∃ x ∈ f, e.eq x v = true) →
      (∀ (j : Nat) x tx, (∀ (i : Nat) y, i < j → f[i]? = some y → e.eq y v = false) →
        f[j]? = some x →
        e.fromPython x = some tx → e.storageEq tx t = e.eq x v) →
      list_remove e.eq f v = .ok (f.eraseIdx (f.findIdx (fun x => e.eq x v))) ∧
      std_find e.storageEq b t = f.findIdx (fun x => e.eq x v) := by
  intro f
  induction f with
  | nil =>
    rintro b - ⟨x, hx, -⟩ -
    exact absurd hx (List.not_mem_nil x)
  | cons a as ih =>
    intro b hmap hmem hagree
    cases b with
    | nil => simp at hmap
    | cons y ys =>
      simp only [List.map_cons, List.cons.injEq] at hmap
      obtain ⟨hay, hrest⟩ := hmap
      have hhead : e.storageEq y t = e.eq a v :=
        hagree 0 a y (fun i _ hi => absurd hi (Nat.not_lt_zero i))
          (List.getElem?_cons_zero) hay
      rw [List.findIdx_cons]
      by_cases ha : e.eq a v = true
      · rw [ha] at hhead
        simp only [ha, cond_true, List.eraseIdx_zero, List.tail_cons]
        refine ⟨by simp [list_remove, ha], ?_⟩
        simp [std_find, hhead]
      · have ha' : e.eq a v = false := by simpa using ha
        rw [ha'] at hhead
        have hmem' : ∃ x ∈ as, e.eq x v = true := by
          obtain ⟨x, hx, hxv⟩ := hmem
          rcases List.mem_cons.1 hx with h | h
          · subst h; exact absurd hxv ha
          · exact ⟨x, h, hxv⟩
        obtain ⟨h1, h2⟩ := ih ys hrest hmem' (by
          intro j x tx hbefore hx hconv
          refine hagree (j + 1) x tx ?_ (by simpa using hx) hconv
          intro i y' hi hy
          cases i with
          | zero =>
            simp only [List.getElem?_cons_zero, Option.some.injEq] at hy
            rw [← hy]; exact ha'
          | succ i =>
            exact hbefore i y' (by omega) (by simpa using hy))
        simp only [ha', cond_false, List.eraseIdx_cons_succ]
        refine ⟨by simp [list_remove, ha', h1], ?_⟩
        simp [std_find, hhead, h2]

/-- C9, as the claim states it, fails for a converter that maps two unequal
Python values to one typed value.  In a list of element type `float` the Python
integers `2**53` and `2**53 + 1` both convert to the double `2**53`.  On the
consistent list `[2**53, 7, 2**53 + 1]`, `remove( 2**53 + 1 )` deletes position `2`
of `front`, while `std::find` meets the converted value at position `0` of the
vector and that one is erased; the views are inconsistent afterwards. -/
theorem remove_erases_other_position :
    consistent floatEngine
      ⟨[.int 9007199254740992, .int 7, .int 9007199254740993],
        [9007199254740992, 7, 9007199254740992]⟩ ∧
    floatEngine.fromPython (.int 9007199254740993) = some 9007199254740992 ∧
    PyStructList_Remove floatEngine
        ⟨[.int 9007199254740992, .int 7, .int 9007199254740993],
          [9007199254740992, 7, 9007199254740992]⟩ (.int 9007199254740993)
      = .ok ⟨[PyVal.int 9007199254740992, .int 7, .int 9007199254740993].eraseIdx 2,
          [(9007199254740992 : Int), 7, 9007199254740992].eraseIdx 0⟩ () ∧
    [(9007199254740992 : Int), 7, 9007199254740992].eraseIdx 0
      ≠ [(9007199254740992 : Int), 7, 9007199254740992].eraseIdx 2 ∧
    ¬ consistent floatEngine ⟨[.int 9007199254740992, .int 7], [7, 9007199254740992]⟩ := by
  refine ⟨?_, by decide, by decide, by decide, ?_⟩
  · rw [consistent_iff_map]; decide
  · rw [consistent_iff_map]; decide

/-- C9, amended: on a consistent list, for a convertible value `v` that `front`
contains, and provided that for every item `x` of `front` up to and including the
first one equal to `v` the `operator==` of the typed values finds the converted
`x` equal to the converted `v` exactly when the list engine finds `x` equal to
`v`, `remove( v )` returns normally and erases one and the same position `p` from
both views, the position of the first item of `front` equal to `v`; the views
are consistent afterwards. -/
theorem remove_erases_same_position (e : Engine V T K S)
    (st : PyStructList V T) (v : V) (t : T) (hc : consistent e st)
    (hv : e.fromPython v = some t) (hmem : ∃ x ∈ st.front, e.eq x v = true)
    (hagree : ∀ (j : Nat) x tx,
      (∀ (i : Nat) y, i < j → st.front[i]? = some y → e.eq y v = false) →
      st.front[j]? = some x → e.fromPython x = some tx → e.storageEq tx t = e.eq x v) :
    ∃ p, p < st.front.length ∧
      (∃ x, st.front[p]? = some x ∧ e.eq x v = true) ∧
      (∀ j x, j < p → st.front[j]? = some x → e.eq x v = false) ∧
      PyStructList_Remove e st v = .ok ⟨st.front.eraseIdx p, st.vector.eraseIdx p⟩ () ∧
      consistent e ⟨st.front.eraseIdx p, st.vector.eraseIdx p⟩ := by
  have hlen := hc.1
  rw [consistent_iff_map] at hc
  obtain ⟨hrem, hfind⟩ := remove_positions e v t st.front st.vector hc hmem hagree
  have hp : st.front.findIdx (fun x => e.eq x v) < st.front.length :=
    List.findIdx_lt_length_of_exists hmem
  refine ⟨st.front.findIdx (fun x => e.eq x v), hp, ?_, ?_, ?_, ?_⟩
  · have hget := @List.findIdx_getElem V (fun x => e.eq x v) st.front hp
    exact ⟨st.front[st.front.findIdx (fun x => e.eq x v)], List.getElem?_eq_getElem hp, hget⟩
  · intro j x hj hx
    have hjl : j < st.front.length := by omega
    rw [List.getElem?_eq_getElem hjl] at hx
    have := List.not_of_lt_findIdx hj
    rw [Option.some.inj hx] at this
    simpa using this
  · unfold PyStructList_Remove
    simp only [hrem, catchConvert, convertValue, hv, hfind]
    rw [if_pos (by omega)]
  · rw [consistent_iff_map]
    simp only [map_eraseIdx_comm, hc]

/-- Witness for `remove_erases_same_position`: `remove( 2 )` on the list
`[1, 2, 3, 2]` of element type `int` erases position `1` in both views. -/
theorem remove_erases_same_position_witness :
    consistent intEngine ⟨[.int 1, .int 2, .int 3, .int 2], [1, 2, 3, 2]⟩ ∧
    (∃ p, p < 4 ∧
      (∃ x, [PyVal.int 1, .int 2, .int 3, .int 2][p]? = some x ∧ pyEq x (.int 2) = true) ∧
      (∀ j x, j < p → [PyVal.int 1, .int 2, .int 3, .int 2][j]? = some x →
        pyEq x (.int 2) = false) ∧
      PyStructList_Remove intEngine ⟨[.int 1, .int 2, .int 3, .int 2], [1, 2, 3, 2]⟩ (.int 2)
        = .ok ⟨[PyVal.int 1, .int 2, .int 3, .int 2].eraseIdx p,
            [(1 : Int), 2, 3, 2].eraseIdx p⟩ () ∧
      consistent intEngine ⟨[PyVal.int 1, .int 2, .int 3, .int 2].eraseIdx p,
        [(1 : Int), 2, 3, 2].eraseIdx p⟩) ∧
    PyStructList_Remove intEngine ⟨[.int 1, .int 2, .int 3, .int 2], [1, 2, 3, 2]⟩ (.int 2)
      = .ok ⟨[.int 1, .int 3, .int 2], [1, 3, 2]⟩ () :=
  have hc : consistent intEngine ⟨[.int 1, .int 2, .int 3, .int 2], [1, 2, 3, 2]⟩ := by
    rw [consistent_iff_map]; decide
  ⟨hc,
    remove_erases_same_position intEngine ⟨[.int 1, .int 2, .int 3, .int 2], [1, 2, 3, 2]⟩
      (.int 2) 2 hc (by rfl) ⟨.int 2, by decide, by decide⟩ (by
        intro j x tx _ hx hconv
        rcases j with _ | _ | _ | _ | j
        all_goals simp only [List.getElem?_cons_zero, List.getElem?_cons_succ,
          List.getElem?_nil, Option.some.injEq] at hx
        all_goals first
          | (subst hx
             simp only [intEngine, intFromPython, PY_SSIZE_T_MAX] at hconv
             rw [if_pos (by decide)] at hconv
             rw [← Option.some.inj hconv]
             decide)
          | exact absurd hx (by simp)),
    by decide⟩

/-- A vector none of whose elements `operator==` finds equal to `x` is searched to
its end. -/
theorem std_find_no_match (eq : T → T → Bool) (x : T) :
    ∀ (vec : List T), (∀ y ∈ vec, eq y x = false) → std_find eq vec x = vec.length := by
  intro vec
  induction vec with
  | nil => intro _; rfl
  | cons y ys ih =>
    intro h
    have hy : eq y x = false := h y (List.mem_cons_self y ys)
    simp [std_find, hy, ih (fun z hz => h z (List.mem_cons_of_mem y hz))]

end Remove

/-! ## In-place repetition -/

section Repeat

variable {V T : Type}

/-- With a multiplier above `INT_MAX` the counter `int i` of the outer loop is
incremented past `INT_MAX` before `i < n` can fail. -/
theorem repeatOuter_counter_overflow (n : Int) (hn : INT_MAX < n) :
    ∀ (k : Nat) (i : Int), 1 ≤ i → i ≤ INT_MAX → INT_MAX - i < k →
      repeatOuter (T := T) 0 n k i [] = none := by
  intro k
  induction k with
  | zero =>
    intro i _ h2 h3
    simp only [Nat.cast_zero] at h3
    omega
  | succ k ih =>
    intro i h1 h2 h3
    unfold repeatOuter
    rw [if_pos (by omega)]
    simp only [Int.toNat_zero, repeatInner]
    by_cases hi : i + 1 > INT_MAX
    · rw [if_pos hi]
    · rw [if_neg hi]
      apply ih (i + 1) (by omega) (by omega)
      push_cast at h3
      omega

/-- The inner loop, started in a vector whose first `i * m + j` elements repeat
`b`, extends the repeating part by `k` elements. -/
theorem repeatInner_tiles (b : List T) (i : Nat) (hi : 1 ≤ i) :
    ∀ (k j : Nat) (vec : List T), j + k ≤ b.length → i * b.length + j + k ≤ vec.length →
      (vec.length : Int) ≤ INT_MAX →
      (∀ p, p < i * b.length + j → vec[p]? = b[p % b.length]?) →
      ∃ r, repeatInner (i : Int) (b.length : Int) k (j : Int) vec = some r ∧
        r.length = vec.length ∧
        ∀ p, p < i * b.length + j + k → r[p]? = b[p % b.length]? := by
  intro k
  induction k with
  | zero =>
    intro j vec _ _ _ hrep
    exact ⟨vec, rfl, rfl, fun p hp => hrep p (by omega)⟩
  | succ k ih =>
    intro j vec hj hlen hmax hrep
    unfold INT_MAX at hmax
    have hm : 0 < b.length := by omega
    have hidx : (i : Int) * (b.length : Int) + (j : Int) = ((i * b.length + j : Nat) : Int) := by
      push_cast; ring
    have hge : b.length ≤ i * b.length := Nat.le_mul_of_pos_left _ hi
    have hread : vec[j]? = some b[j] := by
      rw [hrep j (by omega), Nat.mod_eq_of_lt (by omega), List.getElem?_eq_getElem]
    unfold repeatInner
    simp only [hidx, Int.toNat_ofNat]
    rw [if_neg (by unfold INT_MAX; omega)]
    simp only [hread]
    rw [if_pos (by omega)]
    obtain ⟨r, hr, hrl, hrp⟩ := ih (j + 1) (vec.set (i * b.length + j) b[j]) (by omega)
      (by rw [List.length_set]; omega) (by rw [List.length_set]; unfold INT_MAX; omega)
      (by
        intro p hp
        rw [List.getElem?_set]
        by_cases hpe : i * b.length + j = p
        · subst hpe
          have hmod : (i * b.length + j) % b.length = j := by
            rw [Nat.add_comm, Nat.add_mul_mod_self_right]
            exact Nat.mod_eq_of_lt (by omega)
          rw [if_pos rfl, if_pos (by omega), hmod, List.getElem?_eq_getElem]
        · rw [if_neg hpe]
          exact hrep p (by omega))
    have hcast : ((j : Int) + 1) = ((j + 1 : Nat) : Int) := by push_cast; rfl
    rw [hcast]
    refine ⟨r, hr, by rw [hrl, List.length_set], fun p hp => hrp p (by omega)⟩

/-- The outer loop, started in a vector whose first `i` blocks repeat `b`, fills
the blocks up to block `i + k`, as long as the counter stays within `int`. -/
theorem repeatOuter_tiles (b : List T) (n : Nat) (hn : (n : Int) ≤ INT_MAX) :
    ∀ (k i : Nat) (vec : List T), 1 ≤ i → i + k ≤ n → n * b.length ≤ vec.length →
      (vec.length : Int) ≤ INT_MAX →
      (∀ p, p < i * b.length → vec[p]? = b[p % b.length]?) →
      ∃ r, repeatOuter (b.length : Int) (n : Int) k (i : Int) vec = some r ∧
        r.length = vec.length ∧
        ∀ p, p < (i + k) * b.length → r[p]? = b[p % b.length]? := by
  intro k
  induction k with
  | zero =>
    intro i vec _ _ _ _ hrep
    exact ⟨vec, rfl, rfl, fun p hp => hrep p (by simpa using hp)⟩
  | succ k ih =>
    intro i vec hi hin hlen hmax hrep
    have hblock : (i + 1) * b.length ≤ n * b.length := Nat.mul_le_mul_right _ (by omega)
    have hexp : (i + 1) * b.length = i * b.length + b.length := by ring
    obtain ⟨r1, hr1, hl1, hp1⟩ := repeatInner_tiles b i hi b.length 0 vec (by omega)
      (by omega) hmax (by simpa using hrep)
    unfold repeatOuter
    rw [if_pos (by omega)]
    simp only [Int.toNat_ofNat]
    have hzero : ((0 : Nat) : Int) = 0 := rfl
    rw [hzero] at hr1
    simp only [hr1]
    rw [if_neg (by unfold INT_MAX at hn ⊢; omega)]
    obtain ⟨r, hr, hrl, hrp⟩ := ih (i + 1) r1 (by omega) (by omega) (by omega)
      (by rw [hl1]; exact hmax)
      (by intro p hp; exact hp1 p (by omega))
    have hcast : ((i : Int) + 1) = ((i + 1 : Nat) : Int) := by push_cast; rfl
    rw [hcast]
    refine ⟨r, hr, by rw [hrl, hl1], fun p hp => hrp p (by
      have : i + (k + 1) = i + 1 + k := by omega
      rw [this] at hp
      exact hp)⟩

/-- Repeating a list `n` times lists its elements cyclically. -/
theorem getElem?_flatten_replicate {α : Type} (l : List α) :
    ∀ (n p : Nat), p < n * l.length →
      (List.replicate n l).flatten[p]? = l[p % l.length]? := by
  intro n
  induction n with
  | zero => intro p hp; simp at hp
  | succ n ih =>
    intro p hp
    rw [List.replicate_succ, List.flatten_cons]
    by_cases h : p < l.length
    · rw [List.getElem?_append_left h, Nat.mod_eq_of_lt h]
    · have hle : l.length ≤ p := by omega
      rw [List.getElem?_append_right hle, ih (p - l.length) (by
        have : (n + 1) * l.length = n * l.length + l.length := by ring
        omega)]
      congr 1
      exact (Nat.mod_eq_sub_mod hle).symm

/-- In-place repetition within the range of `int`: for a multiplier `1 <= n` with
`n <= INT_MAX` and at most `INT_MAX` resulting elements the call returns normally,
`front` is the list repeated `n` times, `vector` has `m * n` elements, its element
`p` is the element `p mod m` of the old vector (no conversion takes place), and a
consistent list stays consistent. -/
theorem inplace_repeat_tiles [Inhabited T] {K S : Type} (e : Engine V T K S)
    (st : PyStructList V T) (n : Nat) (hn1 : 1 ≤ n) (hlen : st.front.length = st.vector.length)
    (hn : (n : Int) ≤ INT_MAX) (hsize : ((n * st.vector.length : Nat) : Int) ≤ INT_MAX) :
    ∃ r, py_struct_list_inplace_repeat st (n : Int)
        = .ok ⟨(List.replicate n st.front).flatten, r⟩ () ∧
      r.length = n * st.vector.length ∧
      (∀ p, p < n * st.vector.length → r[p]? = st.vector[p % st.vector.length]?) ∧
      (consistent e st → consistent e ⟨(List.replicate n st.front).flatten, r⟩) := by
  have hmle : st.vector.length ≤ n * st.vector.length := Nat.le_mul_of_pos_left _ hn1
  have hfront : list_inplace_repeat st.front (n : Int)
      = .ok (List.replicate n st.front).flatten := by
    unfold list_inplace_repeat
    by_cases h0 : st.front.length = 0 ∨ (n : Int) = 1
    · rw [if_pos h0]
      rcases h0 with h0 | h0
      · have : st.front = [] := List.length_eq_zero.1 h0
        simp [this]
      · have : n = 1 := by omega
        simp [this]
    · rw [if_neg h0, if_neg (by omega), if_neg, Int.toNat_ofNat]
      unfold INT_MAX at hsize hn
      unfold PY_SSIZE_T_MAX
      have hpos : (0 : Int) < n := by omega
      rw [not_lt, Int.le_ediv_iff_mul_le hpos]
      push_cast at hsize
      rw [hlen]
      nlinarith
  have hsz : toInt (st.vector.length : Int) = st.vector.length := by
    unfold INT_MAX at hsize
    exact toInt_of_fits _ (by omega) (by push_cast at hsize; omega)
  have hprod : ((st.vector.length : Int) * (n : Int)).toNat = n * st.vector.length := by
    have : (st.vector.length : Int) * (n : Int) = ((n * st.vector.length : Nat) : Int) := by
      push_cast; ring
    rw [this, Int.toNat_ofNat]
  have hres : (resize st.vector (n * st.vector.length)).length = n * st.vector.length :=
    length_resize _ _
  obtain ⟨r, hr, hrl, hrp⟩ := repeatOuter_tiles st.vector n hn (n - 1) 1
    (resize st.vector (n * st.vector.length)) (le_refl 1) (by omega) (by omega)
    (by rw [hres]; exact hsize)
    (by
      intro p hp
      have hp' : p < st.vector.length := by simpa using hp
      rw [Nat.mod_eq_of_lt hp']
      unfold resize
      rw [List.take_of_length_le hmle, List.getElem?_append_left hp'])
  have hk : ((n : Int) - 1).toNat = n - 1 := by omega
  have hone : ((1 : Nat) : Int) = 1 := rfl
  rw [hone] at hr
  have hfull : 1 + (n - 1) = n := by omega
  rw [hfull] at hrp
  refine ⟨r, ?_, by rw [hrl, hres], hrp, ?_⟩
  · unfold py_struct_list_inplace_repeat
    simp only [hfront, hsz]
    have hnonneg : ¬ (st.vector.length : Int) * (n : Int) < 0 :=
      not_lt.2 (Int.mul_nonneg (Int.ofNat_nonneg _) (Int.ofNat_nonneg _))
    rw [if_neg (by omega), if_neg hnonneg, hprod, hk, hr]
  · intro hc
    refine ⟨by simp [hrl, hres, hlen], fun p hp => ?_⟩
    simp only [List.length_flatten, List.map_replicate, List.sum_replicate, smul_eq_mul] at hp
    rw [getElem?_flatten_replicate st.front n p hp, hrp p (by rw [← hlen]; exact hp), hlen]
    have hm : 0 < st.vector.length := by
      rcases Nat.eq_zero_or_pos st.vector.length with h | h
      · rw [hlen, h] at hp; simp at hp
      · exact h
    exact hc.2 (p % st.vector.length) (by rw [hlen]; exact Nat.mod_lt _ hm)

/-- In-place repetition by `n <= 0` empties both views. -/
theorem inplace_repeat_clears [Inhabited T] (st : PyStructList V T) (n : Int) (hn : n ≤ 0) :
    py_struct_list_inplace_repeat st n = .ok ⟨[], []⟩ () := by
  have hfront : list_inplace_repeat st.front n = .ok [] := by
    unfold list_inplace_repeat
    by_cases h0 : st.front.length = 0 ∨ n = 1
    · rw [if_pos h0]
      rcases h0 with h0 | h0
      · rw [List.length_eq_zero.1 h0]
      · omega
    · rw [if_neg h0, if_pos (by omega)]
  unfold py_struct_list_inplace_repeat
  simp only [hfront]
  rw [if_pos hn]

/-- Repetition of an empty struct list by a multiplier above `INT_MAX` runs into
the overflow of the loop counter. -/
theorem inplace_repeat_empty_large [Inhabited T] (n : Int) (hn : INT_MAX < n) :
    py_struct_list_inplace_repeat (⟨[], []⟩ : PyStructList V T) n = .undefined := by
  unfold INT_MAX at hn
  have hfront : list_inplace_repeat ([] : List V) n = .ok [] := by
    simp [list_inplace_repeat]
  have h0 : toInt (([] : List T).length : Int) = 0 := by
    simp [toInt]
  have hr : resize ([] : List T) ((0 : Int) * n).toNat = [] := by
    simp [resize]
  have h := repeatOuter_counter_overflow (T := T) n hn (n - 1).toNat 1 (by omega)
    (by unfold INT_MAX; omega) (by unfold INT_MAX; omega)
  unfold py_struct_list_inplace_repeat
  simp only [hfront, h0]
  rw [if_neg (by omega), if_neg (by omega), hr, h]

/-- C10: repetition of the empty list by `n = 2**31` does not complete.  The list
engine accepts the call (an empty list stays empty), the vector is resized to
`0 * n = 0` elements, and the outer loop `for( int i = 1; i < n; ++i )` then
counts an `int` towards a bound no `int` reaches: `++i` overflows at `INT_MAX`. -/
theorem inplace_repeat_counter_overflow :
    consistent intEngine ⟨[], []⟩ ∧
    list_inplace_repeat ([] : List PyVal) 2147483648 = .ok [] ∧
    py_struct_list_inplace_repeat (⟨[], []⟩ : PyStructList PyVal Int) 2147483648
      = .undefined := by
  refine ⟨?_, by rfl, inplace_repeat_empty_large 2147483648 (by decide)⟩
  rw [consistent_iff_map]; decide

end Repeat

/-! ## Successful `extend` and `pop` -/

section ExtendPop

variable {V T K S : Type}

/-- C11: on a consistent list `(f, b)`, extending by an iterable that yields the
elements `xs`, all convertible with converted values `cs`, returns normally with
`front = f ++ xs` and `vector = b ++ cs`: the old entries of the vector are kept
and only the new list items are converted.  The list is consistent afterwards. -/
theorem extend_appends_converted [Inhabited T] (e : Engine V T K S) (st : PyStructList V T)
    (xs : List V) (cs : List T) (hc : consistent e st)
    (hxs : xs.map e.fromPython = cs.map some) :
    PyStructList_Extend e st (some xs) = .ok ⟨st.front ++ xs, st.vector ++ cs⟩ () ∧
    consistent e ⟨st.front ++ xs, st.vector ++ cs⟩ := by
  have hlen := hc.1
  rw [consistent_iff_map] at hc
  have hcl : cs.length = xs.length := by
    have := congrArg List.length hxs
    simpa using this.symm
  have hconv : (st.front ++ xs).map e.fromPython = (st.vector ++ cs).map some := by
    simp only [List.map_append, hc, hxs]
  have hk : (st.front ++ xs).length - st.vector.length = xs.length := by
    rw [List.length_append]; omega
  have hnew : (st.front ++ xs).length = st.vector.length + xs.length := by
    rw [List.length_append]; omega
  obtain ⟨r, hr, hrl, hget⟩ := copyLoop_ok e (st.front ++ xs) (st.vector ++ cs) hconv xs.length
    st.vector.length (resize st.vector (st.front ++ xs).length) (by omega)
    (by rw [length_resize]; omega)
  have hreq : r = st.vector ++ cs := by
    apply List.ext_getElem?
    intro j
    rw [hget j]
    by_cases h1 : st.vector.length ≤ j ∧ j < st.vector.length + xs.length
    · rw [if_pos h1]
    · rw [if_neg h1]
      by_cases h2 : j < st.vector.length
      · unfold resize
        rw [List.take_of_length_le (by omega), List.getElem?_append_left h2,
          List.getElem?_append_left h2]
      · rw [List.getElem?_eq_none (by rw [length_resize]; omega),
          List.getElem?_eq_none (by rw [List.length_append]; omega)]
  refine ⟨?_, ?_⟩
  · unfold PyStructList_Extend
    simp only [list_extend, hk, hr, hreq]
  · rw [consistent_iff_map]
    exact hconv

/-- Witness for `extend_appends_converted`: extending the list `[1]` of element
type `int` by `[2, 3]`. -/
theorem extend_appends_converted_witness :
    consistent intEngine ⟨[.int 1], [1]⟩ ∧
    PyStructList_Extend intEngine ⟨[.int 1], [1]⟩ (some [.int 2, .int 3])
      = .ok ⟨[.int 1] ++ [.int 2, .int 3], [1] ++ [2, 3]⟩ () ∧
    consistent intEngine ⟨[.int 1] ++ [.int 2, .int 3], [1] ++ [2, 3]⟩ :=
  have hc : consistent intEngine ⟨[.int 1], [1]⟩ := by
    rw [consistent_iff_map]; decide
  ⟨hc, extend_appends_converted intEngine ⟨[.int 1], [1]⟩ [.int 2, .int 3] [2, 3] hc (by decide)⟩

/-- An in-range `pop` on views of equal length (within `int`) takes the item at the
resolved index out of both views and returns it. -/
theorem pop_resolved (st : PyStructList V T) (idx : Option Int)
    (hlen : st.front.length = st.vector.length) (hfit : fitsInt st)
    (hi : -(st.front.length : Int) ≤ idx.getD (-1) ∧ idx.getD (-1) < st.front.length) :
    ∃ x, st.front[(if idx.getD (-1) < 0 then idx.getD (-1) + st.front.length
          else idx.getD (-1)).toNat]? = some x ∧
      PyStructList_Pop st idx
        = .ok ⟨st.front.eraseIdx (if idx.getD (-1) < 0 then idx.getD (-1) + st.front.length
              else idx.getD (-1)).toNat,
            st.vector.eraseIdx (if idx.getD (-1) < 0 then idx.getD (-1) + st.front.length
              else idx.getD (-1)).toNat⟩ x := by
  unfold fitsInt INT_MAX at hfit
  generalize hidx : idx.getD (-1) = i at hi ⊢
  generalize hr : (if i < 0 then i + (st.front.length : Int) else i) = r
  have hr0 : 0 ≤ r := by rw [← hr]; split <;> omega
  have hrn : r < st.front.length := by rw [← hr]; split <;> omega
  have hrlt : r.toNat < st.front.length := by omega
  have hfits : asSsize_t i = some i := by
    unfold asSsize_t PY_SSIZE_T_MAX
    rw [if_pos]
    omega
  have hpop : list_pop st.front i = .ok (st.front[r.toNat], st.front.eraseIdx r.toNat) := by
    unfold list_pop
    simp only [hr]
    rw [if_neg (by omega), if_neg (by omega), List.getElem?_eq_getElem hrlt]
  have hsz : toInt (st.vector.length : Int) = st.front.length := by
    rw [toInt_of_fits _ (by omega) (by omega)]; omega
  refine ⟨st.front[r.toNat], List.getElem?_eq_getElem hrlt, ?_⟩
  unfold PyStructList_Pop
  simp only [hidx, hfits, hpop, hsz, hr]
  rw [if_pos ⟨hr0, hrn⟩, toInt_of_fits r (by omega) (by omega)]

/-- Within the range of `int`, `pop` is sound: on a consistent list of length `n`
whose size fits an `int` and for an index `i` with `-n <= i < n`, by default `-1`,
`pop` returns normally with the Python value `front[ r ]`, where `r = i` for
`i >= 0` and `r = i + n` otherwise, and both views lose exactly the element at
position `r`; the list is consistent afterwards. -/
theorem pop_removes_resolved_position (e : Engine V T K S) (st : PyStructList V T)
    (idx : Option Int) (hc : consistent e st) (hfit : fitsInt st)
    (hi : -(st.front.length : Int) ≤ idx.getD (-1) ∧ idx.getD (-1) < st.front.length) :
    ∃ (r : Nat) (x : V),
      (r : Int) = (if idx.getD (-1) ≥ 0 then idx.getD (-1)
        else idx.getD (-1) + st.front.length) ∧
      st.front[r]? = some x ∧
      PyStructList_Pop st idx = .ok ⟨st.front.eraseIdx r, st.vector.eraseIdx r⟩ x ∧
      consistent e ⟨st.front.eraseIdx r, st.vector.eraseIdx r⟩ := by
  obtain ⟨x, hx, hpop⟩ := pop_resolved st idx hc.1 hfit hi
  refine ⟨_, x, ?_, hx, hpop, ?_⟩
  · split <;> split <;> omega
  · rw [consistent_iff_map] at hc ⊢
    simp only [map_eraseIdx_comm, hc]

/-- Witness for `pop_removes_resolved_position`: `pop()` and `pop( -3 )` on the
list `[1, 2, 3]` of element type `int`. -/
theorem pop_removes_resolved_position_witness :
    consistent intEngine ⟨[.int 1, .int 2, .int 3], [1, 2, 3]⟩ ∧
    (∃ (r : Nat) (x : PyVal),
      (r : Int) = (if (none : Option Int).getD (-1) ≥ 0 then (none : Option Int).getD (-1)
        else (none : Option Int).getD (-1) + ([PyVal.int 1, .int 2, .int 3].length : Nat)) ∧
      [PyVal.int 1, .int 2, .int 3][r]? = some x ∧
      PyStructList_Pop (⟨[.int 1, .int 2, .int 3], [1, 2, 3]⟩ : PyStructList PyVal Int) none
        = .ok ⟨[PyVal.int 1, .int 2, .int 3].eraseIdx r, [(1 : Int), 2, 3].eraseIdx r⟩ x ∧
      consistent intEngine ⟨[PyVal.int 1, .int 2, .int 3].eraseIdx r,
        [(1 : Int), 2, 3].eraseIdx r⟩) ∧
    PyStructList_Pop (⟨[.int 1, .int 2, .int 3], [1, 2, 3]⟩ : PyStructList PyVal Int) none
      = .ok ⟨[.int 1, .int 2], [1, 2]⟩ (.int 3) ∧
    PyStructList_Pop (⟨[.int 1, .int 2, .int 3], [1, 2, 3]⟩ : PyStructList PyVal Int) (some (-3))
      = .ok ⟨[.int 2, .int 3], [2, 3]⟩ (.int 1) :=
  have hc : consistent intEngine ⟨[.int 1, .int 2, .int 3], [1, 2, 3]⟩ := by
    rw [consistent_iff_map]; decide
  ⟨hc,
    pop_removes_resolved_position intEngine ⟨[.int 1, .int 2, .int 3], [1, 2, 3]⟩ none hc
      (by unfold fitsInt; decide) (by decide),
    by decide, by decide⟩

/-- Within the range of `int`, `append` and `pop` cancel: on a consistent list,
`append( v )` of a convertible value followed by `pop()` returns `v` and leaves
`front` and `vector` exactly as they were before the `append`, as long as the grown
vector still fits an `int`. -/
theorem append_then_pop_restores (e : Engine V T K S) (st : PyStructList V T) (v : V) (t : T)
    (hc : consistent e st) (hv : e.fromPython v = some t)
    (hfit : (st.vector.length : Int) + 1 ≤ INT_MAX) :
    ∃ st1, PyStructList_Append e st v = .ok st1 () ∧ PyStructList_Pop st1 none = .ok st v := by
  obtain ⟨f, b⟩ := st
  have hlen : f.length = b.length := hc.1
  simp only at hfit
  refine ⟨⟨f ++ [v], b ++ [t]⟩, ?_, ?_⟩
  · simp [PyStructList_Append, catchConvert, convertValue, hv, PyList_Append]
  · have hidx : (if (none : Option Int).getD (-1) < 0
          then (none : Option Int).getD (-1) + ((f ++ [v]).length : Nat)
          else (none : Option Int).getD (-1)).toNat = f.length := by
      simp only [Option.getD_none, List.length_append, List.length_singleton]
      rw [if_pos (by omega)]
      push_cast
      omega
    obtain ⟨x, hx, hpop⟩ := pop_resolved (⟨f ++ [v], b ++ [t]⟩ : PyStructList V T) none
      (by simp [hlen])
      (by unfold fitsInt; simp only [List.length_append, List.length_singleton]
          push_cast; exact hfit)
      (by simp only [Option.getD_none, List.length_append, List.length_singleton]
          push_cast; omega)
    simp only [hidx] at hx hpop
    rw [List.getElem?_concat_length] at hx
    rw [hpop, ← Option.some.inj hx]
    have h1 : (f ++ [v]).eraseIdx f.length = f := by
      rw [List.eraseIdx_append_of_length_le (le_refl _)]
      simp
    have h2 : (b ++ [t]).eraseIdx f.length = b := by
      rw [hlen, List.eraseIdx_append_of_length_le (le_refl _)]
      simp
    rw [h1, h2]

/-- Witness for `append_then_pop_restores`: `append( 7 )` and `pop()` on the list
`[1, 2]` of element type `int`. -/
theorem append_then_pop_restores_witness :
    consistent intEngine ⟨[.int 1, .int 2], [1, 2]⟩ ∧
    (∃ st1, PyStructList_Append intEngine ⟨[.int 1, .int 2], [1, 2]⟩ (.int 7) = .ok st1 () ∧
      PyStructList_Pop st1 none = .ok ⟨[.int 1, .int 2], [1, 2]⟩ (.int 7)) :=
  have hc : consistent intEngine ⟨[.int 1, .int 2], [1, 2]⟩ := by
    rw [consistent_iff_map]; decide
  ⟨hc, append_then_pop_restores intEngine ⟨[.int 1, .int 2], [1, 2]⟩ (.int 7) 7 hc (by rfl)
    (by unfold INT_MAX; decide)⟩

/-- C14: the end-to-end scenario for the element type `int`.  From the empty list,
`append( 5 )`, `insert( 0, 3 )` and `extend( [7, 9] )` all return normally and lead
to `front = [3, 5, 7, 9]` and `vector = [3, 5, 7, 9]`; `sort( reverse = True )` then
returns normally with `[9, 7, 5, 3]` in both views. -/
theorem end_to_end_scenario :
    PyStructList_Append intEngine ⟨[], []⟩ (.int 5) = .ok ⟨[.int 5], [5]⟩ () ∧
    PyStructList_Insert intEngine ⟨[.int 5], [5]⟩ 0 (.int 3)
      = .ok ⟨[.int 3, .int 5], [3, 5]⟩ () ∧
    PyStructList_Extend intEngine ⟨[.int 3, .int 5], [3, 5]⟩ (some [.int 7, .int 9])
      = .ok ⟨[.int 3, .int 5, .int 7, .int 9], [3, 5, 7, 9]⟩ () ∧
    PyStructList_Sort intEngine ⟨[.int 3, .int 5, .int 7, .int 9], [3, 5, 7, 9]⟩ 0 ⟨true⟩
      = .ok ⟨[.int 9, .int 7, .int 5, .int 3], [9, 7, 5, 3]⟩ () := by
  refine ⟨by decide, by decide, by decide, by decide⟩

/-- C15: on a consistent list `(f, b)`, `reverse` returns normally with
`front = reverse( f )` and `vector = reverse( b )`, `clear` returns normally with
both views empty, and the list is consistent after either.  Neither method takes
the converter: their results do not depend on the engine. -/
theorem reverse_and_clear_mirror (e : Engine V T K S) (st : PyStructList V T)
    (hc : consistent e st) :
    PyStructList_Reverse st = .ok ⟨st.front.reverse, st.vector.reverse⟩ () ∧
    consistent e ⟨st.front.reverse, st.vector.reverse⟩ ∧
    PyStructList_Clear st = .ok ⟨[], []⟩ () ∧
    consistent e ⟨[], []⟩ := by
  rw [consistent_iff_map] at hc
  refine ⟨rfl, ?_, rfl, ?_⟩
  · rw [consistent_iff_map]
    simp only [List.map_reverse, hc]
  · rw [consistent_iff_map]
    rfl

/-- Witness for `reverse_and_clear_mirror`: the list `[1, 2, 3]` of element type
`int`. -/
theorem reverse_and_clear_mirror_witness :
    consistent intEngine ⟨[.int 1, .int 2, .int 3], [1, 2, 3]⟩ ∧
    PyStructList_Reverse (⟨[.int 1, .int 2, .int 3], [1, 2, 3]⟩ : PyStructList PyVal Int)
      = .ok ⟨[.int 3, .int 2, .int 1], [3, 2, 1]⟩ () ∧
    consistent intEngine ⟨[.int 3, .int 2, .int 1], [3, 2, 1]⟩ ∧
    PyStructList_Clear (⟨[.int 1, .int 2, .int 3], [1, 2, 3]⟩ : PyStructList PyVal Int)
      = .ok ⟨[], []⟩ () ∧
    consistent intEngine ⟨[], []⟩ :=
  have hc : consistent intEngine ⟨[.int 1, .int 2, .int 3], [1, 2, 3]⟩ := by
    rw [consistent_iff_map]; decide
  ⟨hc, reverse_and_clear_mirror intEngine ⟨[.int 1, .int 2, .int 3], [1, 2, 3]⟩ hc⟩

/-- A list of `n` equal convertible items with a vector of `n` copies of the
converted value is consistent. -/
theorem consistent_replicate (e : Engine V T K S) (n : Nat) (x : V) (t : T)
    (hx : e.fromPython x = some t) :
    consistent e ⟨List.replicate n x, List.replicate n t⟩ := by
  rw [consistent_iff_map]
  simp only [List.map_replicate, hx]

/-- The method `append` with a convertible value. -/
theorem append_converted (e : Engine V T K S) (st : PyStructList V T) (v : V) (t : T)
    (hv : e.fromPython v = some t) :
    PyStructList_Append e st v = .ok ⟨st.front ++ [v], st.vector ++ [t]⟩ () := by
  simp [PyStructList_Append, catchConvert, convertValue, hv, PyList_Append]

/-- With more than `INT_MAX` (and at most `2^32`) elements in views of equal
length, `int sz = self -> vector.size()` is not positive.  `pop()` still succeeds
in the list engine, which removes the last item of `front`; the index `-1 + sz` is
then negative and the assertion `index >= 0 && index < sz` is violated. -/
theorem pop_beyond_int_size (st : PyStructList V T)
    (hlen : st.front.length = st.vector.length)
    (h1 : INT_MAX < (st.vector.length : Int)) (h2 : (st.vector.length : Int) ≤ 4294967296) :
    (∃ x rest, list_pop st.front (-1) = .ok (x, rest)) ∧
    toInt (st.vector.length : Int) ≤ 0 ∧
    PyStructList_Pop st none = .undefined := by
  unfold INT_MAX at h1
  have hfits : asSsize_t (-1) = some (-1) := by decide
  have hr : (if (-1 : Int) < 0 then -1 + (st.front.length : Int) else -1)
      = (st.front.length : Int) - 1 := by
    rw [if_pos (by decide)]; omega
  have hrlt : ((st.front.length : Int) - 1).toNat < st.front.length := by omega
  have hpop : list_pop st.front (-1)
      = .ok (st.front[((st.front.length : Int) - 1).toNat],
          st.front.eraseIdx ((st.front.length : Int) - 1).toNat) := by
    unfold list_pop
    simp only [hr]
    rw [if_neg (by omega), if_neg (by omega), List.getElem?_eq_getElem hrlt]
  have hsz : toInt (st.vector.length : Int) ≤ 0 := by
    unfold toInt; omega
  refine ⟨⟨_, _, hpop⟩, hsz, ?_⟩
  have hidx : (if (-1 : Int) < 0 then -1 + toInt (st.vector.length : Int) else -1)
      = -1 + toInt (st.vector.length : Int) := if_pos (by decide)
  unfold PyStructList_Pop
  simp only [Option.getD_none, hfits, hpop, hidx]
  rw [if_neg (by omega)]

/-- C12: `pop()` on a consistent list of `2**31` items does not return the last
item.  The index `-1` is in range and the list engine pops the last item of
`front`, but `int sz = self -> vector.size()` is `-2**31` for this size, the
resolved index `-1 + sz` is negative, and the assertion
`index >= 0 && index < sz` is violated. -/
theorem pop_on_list_beyond_int_reaches_assert :
    consistent intEngine ⟨List.replicate 2147483648 (.int 0), List.replicate 2147483648 0⟩ ∧
    (List.replicate 2147483648 (PyVal.int 0)).length = 2147483648 ∧
    (∃ x rest, list_pop (List.replicate 2147483648 (PyVal.int 0)) (-1) = .ok (x, rest)) ∧
    toInt 2147483648 = -2147483648 ∧
    PyStructList_Pop
      (⟨List.replicate 2147483648 (.int 0), List.replicate 2147483648 0⟩ :
        PyStructList PyVal Int) none = .undefined := by
  have h := pop_beyond_int_size
    (⟨List.replicate 2147483648 (.int 0), List.replicate 2147483648 0⟩ : PyStructList PyVal Int)
    (by rw [List.length_replicate, List.length_replicate])
    (by rw [List.length_replicate]; decide) (by rw [List.length_replicate]; decide)
  exact ⟨consistent_replicate intEngine 2147483648 (.int 0) 0 (by rfl),
    List.length_replicate _ _, h.1, by decide, h.2.2⟩

/-- C13: `append( 0 )` followed by `pop()` on the consistent list of `2**31 - 1`
items does not restore it.  The `append` succeeds and leaves `2**31` items in both
views; for this size `int sz = self -> vector.size()` is negative, so the `pop()`
removes the last item of `front` and then violates the assertion
`index >= 0 && index < sz` instead of returning the value. -/
theorem append_then_pop_beyond_int_reaches_assert :
    consistent intEngine ⟨List.replicate 2147483647 (.int 0), List.replicate 2147483647 0⟩ ∧
    fitsInt (⟨List.replicate 2147483647 (.int 0), List.replicate 2147483647 0⟩ :
      PyStructList PyVal Int) ∧
    PyStructList_Append intEngine
        ⟨List.replicate 2147483647 (.int 0), List.replicate 2147483647 0⟩ (.int 0)
      = .ok ⟨List.replicate 2147483647 (.int 0) ++ [.int 0],
          List.replicate 2147483647 0 ++ [0]⟩ () ∧
    PyStructList_Pop
      (⟨List.replicate 2147483647 (.int 0) ++ [.int 0], List.replicate 2147483647 0 ++ [0]⟩ :
        PyStructList PyVal Int) none = .undefined := by
  have h := pop_beyond_int_size
    (⟨List.replicate 2147483647 (.int 0) ++ [.int 0], List.replicate 2147483647 0 ++ [0]⟩ :
      PyStructList PyVal Int)
    (by rw [List.length_append, List.length_append, List.length_replicate,
          List.length_replicate, List.length_cons, List.length_cons, List.length_nil,
          List.length_nil])
    (by rw [List.length_append, List.length_replicate, List.length_cons, List.length_nil]
        decide)
    (by rw [List.length_append, List.length_replicate, List.length_cons, List.length_nil]
        decide)
  refine ⟨consistent_replicate intEngine 2147483647 (.int 0) 0 (by rfl), ?_,
    append_converted intEngine _ (.int 0) 0 (by rfl), h.2.2⟩
  unfold fitsInt
  simp only [List.length_replicate]
  decide

end ExtendPop

/-! ## Full rebuilds: `sort` against slice assignment -/

section FullRebuild

variable {V T K S : Type}

/-- With views of equal length `sort` overwrites the whole vector: whatever the
vector held before, it is the converted sorted list afterwards. -/
theorem sort_overwrites_equal_length (e : Engine V T K S) (st : PyStructList V T) (kwargs : K)
    (sorted : List V) (conv : List T) (hsort : e.sort kwargs st.front = .ok sorted)
    (hlen : st.vector.length = sorted.length)
    (hconv : sorted.map e.fromPython = conv.map some) :
    PyStructList_Sort e st 0 kwargs = .ok ⟨sorted, conv⟩ () ∧ consistent e ⟨sorted, conv⟩ := by
  refine ⟨?_, ?_⟩
  · unfold PyStructList_Sort
    simp only [hsort, copyLoop_full e sorted conv st.vector hconv hlen]
    simp
  · rw [consistent_iff_map]
    exact hconv

/-- C16: `sort` does not rebuild the vector from scratch; it overwrites the
`vector.size()` elements the vector already has.  A failed `extend` and a failed
`remove` take the consistent list `[2, 1]` to `front = [2, 1, 0]`, `vector = [2, 1]`,
where every item of `front` can be converted.  `sort()` then returns normally with
`front = [0, 1, 2]` and `vector = [0, 1]`: the vector keeps its old length and the
views are not consistent. -/
theorem sort_keeps_vector_length :
    consistent intEngine ⟨[.int 2, .int 1], [2, 1]⟩ ∧
    PyStructList_Extend intEngine ⟨[.int 2, .int 1], [2, 1]⟩ (some [.int 0, .str "x"])
      = .error .TypeError ⟨[.int 2, .int 1, .int 0, .str "x"], [2, 1]⟩ ∧
    PyStructList_Remove intEngine ⟨[.int 2, .int 1, .int 0, .str "x"], [2, 1]⟩ (.str "x")
      = .error .TypeError ⟨[.int 2, .int 1, .int 0], [2, 1]⟩ ∧
    [PyVal.int 2, .int 1, .int 0].map intEngine.fromPython = [(2 : Int), 1, 0].map some ∧
    PyStructList_Sort intEngine ⟨[.int 2, .int 1, .int 0], [2, 1]⟩ 0 ⟨false⟩
      = .ok ⟨[.int 0, .int 1, .int 2], [0, 1]⟩ () ∧
    ¬ consistent intEngine ⟨[.int 0, .int 1, .int 2], [0, 1]⟩ := by
  refine ⟨?_, by decide, by decide, by decide, by decide, ?_⟩
  · rw [consistent_iff_map]; decide
  · rw [consistent_iff_map]; decide

/-- C17: in every state, consistent or not, when the list engine carries out the
slice assignment or slice deletion and every item of the resulting list can be
converted, the slot returns normally and the vector is the converted list: the
views have the same length and `vector[ i ]` is the converted `front[ i ]`. -/
theorem slice_rebuilds_vector [Inhabited T] (e : Engine V T K S) (st : PyStructList V T) (s : S)
    (value : Option (PyArg V)) (front' : List V) (conv : List T)
    (hfront : (match value with
      | some v => e.setSlice s v.items st.front
      | none => e.delSlice s st.front) = .ok front')
    (hconv : front'.map e.fromPython = conv.map some) :
    py_struct_list_ass_subscript e st (.slice s) value = .ok ⟨front', conv⟩ () ∧
    consistent e ⟨front', conv⟩ := by
  have hvl : (resize ([] : List T) front'.length).length = front'.length := length_resize _ _
  have hloop := copyLoop_full e front' conv (resize ([] : List T) front'.length) hconv hvl
  rw [hvl] at hloop
  refine ⟨?_, ?_⟩
  · unfold py_struct_list_ass_subscript
    simp only [hfront, rebuild, hloop]
  · rw [consistent_iff_map]
    exact hconv

/-- Witness for `slice_rebuilds_vector`: in the diverged state `front = [1, 2, 3]`,
`vector = [9]` the assignment `seq[ 1:2 ] = [7, 8]` leaves `[1, 7, 8, 3]` in both
views. -/
theorem slice_rebuilds_vector_witness :
    py_struct_list_ass_subscript intEngine ⟨[.int 1, .int 2, .int 3], [9]⟩ (.slice ⟨1, 2⟩)
        (some ⟨.int 0, some [.int 7, .int 8]⟩)
      = .ok ⟨[.int 1, .int 7, .int 8, .int 3], [1, 7, 8, 3]⟩ () ∧
    consistent intEngine ⟨[.int 1, .int 7, .int 8, .int 3], [1, 7, 8, 3]⟩ :=
  slice_rebuilds_vector intEngine ⟨[.int 1, .int 2, .int 3], [9]⟩ ⟨1, 2⟩
    (some ⟨.int 0, some [.int 7, .int 8]⟩) [.int 1, .int 7, .int 8, .int 3] [1, 7, 8, 3]
    (by rfl) (by decide)

/-- C18: `sort` writes the converted items into the live vector, not into a copy.
The failed assignment `seq[ 2 ] = 2.0` takes the consistent list `[3, 1, 2]` to
`front = [3, 1, 2.0]`, `vector = [3, 1, 2]`.  `sort()` then orders `front` as
`[1, 2.0, 3]`, stores the converted `1` at position `0` and fails on `2.0`: it
reports the error with `vector = [1, 1, 2]`, which is not the vector from before
the call. -/
theorem sort_failure_overwrites_vector :
    consistent intEngine ⟨[.int 3, .int 1, .int 2], [3, 1, 2]⟩ ∧
    py_struct_list_ass_subscript intEngine ⟨[.int 3, .int 1, .int 2], [3, 1, 2]⟩ (.index 2)
        (some ⟨.float 2, none⟩)
      = .error .TypeError ⟨[.int 3, .int 1, .float 2], [3, 1, 2]⟩ ∧
    intEngine.sort ⟨false⟩ [.int 3, .int 1, .float 2] = .ok [.int 1, .float 2, .int 3] ∧
    intEngine.fromPython (.float 2) = none ∧
    PyStructList_Sort intEngine ⟨[.int 3, .int 1, .float 2], [3, 1, 2]⟩ 0 ⟨false⟩
      = .error .TypeError ⟨[.int 1, .float 2, .int 3], [1, 1, 2]⟩ ∧
    [(1 : Int), 1, 2] ≠ [3, 1, 2] := by
  refine ⟨?_, by decide, by rfl, by rfl, by decide, by decide⟩
  rw [consistent_iff_map]; decide

/-- C19: in every state, when the list engine carries out the slice assignment (or
slice deletion) and the resulting list holds an item that cannot be converted, the
slot reports an error and the vector is the one from before the call: the
rebuild fills a fresh vector and swaps it in only at the end. -/
theorem slice_failure_keeps_vector [Inhabited T] (e : Engine V T K S) (st : PyStructList V T)
    (s : S) (value : Option (PyArg V)) (front' : List V) (k : Nat) (x : V)
    (hfront : (match value with
      | some v => e.setSlice s v.items st.front
      | none => e.delSlice s st.front) = .ok front')
    (hk : front'[k]? = some x) (hx : e.fromPython x = none) :
    py_struct_list_ass_subscript e st (.slice s) value
      = .error .TypeError ⟨front', st.vector⟩ := by
  have hklt : k < front'.length := by
    by_contra hcon
    rw [List.getElem?_eq_none (by omega)] at hk
    exact absurd hk (by simp)
  obtain ⟨vec', hloop⟩ := copyLoop_error e front' front'.length 0
    (resize ([] : List T) front'.length) (by omega) (by rw [length_resize]; omega)
    ⟨k, x, by omega, by omega, hk, hx⟩
  unfold py_struct_list_ass_subscript
  simp only [hfront, rebuild, hloop]

/-- Witness for `slice_failure_keeps_vector`: the assignment `seq[ 1:2 ] = [7, "x"]`
on the consistent list `[1, 2, 3]`. -/
theorem slice_failure_keeps_vector_witness :
    [PyVal.int 1, .int 7, .str "x", .int 3][2]? = some (PyVal.str "x") ∧
    intEngine.fromPython (.str "x") = none ∧
    py_struct_list_ass_subscript intEngine ⟨[.int 1, .int 2, .int 3], [1, 2, 3]⟩ (.slice ⟨1, 2⟩)
        (some ⟨.int 0, some [.int 7, .str "x"]⟩)
      = .error .TypeError ⟨[.int 1, .int 7, .str "x", .int 3], [1, 2, 3]⟩ :=
  ⟨by rfl, by rfl,
    slice_failure_keeps_vector intEngine ⟨[.int 1, .int 2, .int 3], [1, 2, 3]⟩ ⟨1, 2⟩
      (some ⟨.int 0, some [.int 7, .str "x"]⟩) [.int 1, .int 7, .str "x", .int 3] 2 (.str "x")
      (by rfl) (by rfl) (by rfl)⟩

end FullRebuild

/-! ## `remove` with a value that cannot be converted -/

section RemoveFailure

variable {V T K S : Type}

/-- The list engine removes the first item equal to `v` whenever there is one. -/
theorem list_remove_first (eq : V → V → Bool) (v : V) :
    ∀ (f : List V), (∃ x ∈ f, eq x v = true) →
      list_remove eq f v = .ok (f.eraseIdx (f.findIdx (fun x => eq x v))) := by
  intro f
  induction f with
  | nil =>
    rintro ⟨x, hx, -⟩
    exact absurd hx (List.not_mem_nil x)
  | cons a as ih =>
    intro hmem
    rw [List.findIdx_cons]
    by_cases ha : eq a v = true
    · simp [list_remove, ha]
    · have ha' : eq a v = false := by simpa using ha
      have hmem' : ∃ x ∈ as, eq x v = true := by
        obtain ⟨x, hx, hxv⟩ := hmem
        rcases List.mem_cons.1 hx with h | h
        · subst h; exact absurd hxv ha
        · exact ⟨x, h, hxv⟩
      simp [list_remove, ha', ih hmem']

/-- When the list engine finds an item equal to `v` but `operator==` finds no
element of the vector equal to the converted `v` (a `double` that is not a number
is such a value), `std::find` returns `end()` and the assertion
`it != self -> vector.end()` is violated. -/
theorem remove_without_typed_match (e : Engine V T K S) (st : PyStructList V T) (v : V) (t : T)
    (hmem : ∃ x ∈ st.front, e.eq x v = true) (hv : e.fromPython v = some t)
    (hno : ∀ y ∈ st.vector, e.storageEq y t = false) :
    PyStructList_Remove e st v = .undefined := by
  unfold PyStructList_Remove
  simp only [list_remove_first e.eq v st.front hmem, catchConvert, convertValue, hv,
    std_find_no_match e.storageEq t st.vector hno]
  rw [if_neg (by omega)]

/-- C20: on a consistent list, for a value `v` that equals an item of `front` but
cannot be converted, `remove( v )` reports an error after the list engine has
deleted the first item equal to `v` (position `p`) from `front`; `vector` is what
it was, so `front` is one element shorter than `vector` afterwards. -/
theorem remove_failure_after_front_change (e : Engine V T K S)
    (st : PyStructList V T) (v : V) (hc : consistent e st)
    (hmem : ∃ x ∈ st.front, e.eq x v = true) (hv : e.fromPython v = none) :
    ∃ p, p < st.front.length ∧
      (∃ x, st.front[p]? = some x ∧ e.eq x v = true) ∧
      (∀ j x, j < p → st.front[j]? = some x → e.eq x v = false) ∧
      PyStructList_Remove e st v = .error .TypeError ⟨st.front.eraseIdx p, st.vector⟩ ∧
      (st.front.eraseIdx p).length = st.vector.length - 1 ∧
      0 < st.vector.length := by
  have hlen := hc.1
  have hp : st.front.findIdx (fun x => e.eq x v) < st.front.length :=
    List.findIdx_lt_length_of_exists hmem
  refine ⟨st.front.findIdx (fun x => e.eq x v), hp, ?_, ?_, ?_, ?_, by omega⟩
  · have hget := @List.findIdx_getElem V (fun x => e.eq x v) st.front hp
    exact ⟨st.front[st.front.findIdx (fun x => e.eq x v)], List.getElem?_eq_getElem hp, hget⟩
  · intro j x hj hx
    have hjl : j < st.front.length := by omega
    rw [List.getElem?_eq_getElem hjl] at hx
    have := List.not_of_lt_findIdx hj
    rw [Option.some.inj hx] at this
    simpa using this
  · unfold PyStructList_Remove
    simp only [list_remove_first e.eq v st.front hmem, catchConvert, convertValue, hv]
  · rw [List.length_eraseIdx, if_pos hp]
    omega

/-- Witness for `remove_failure_after_front_change`: `remove( 1.0 )` on the list
`[2, 1, 1]` of element type `int`; `1.0 == 1` holds in Python, and the converter
does not accept a `float`. -/
theorem remove_failure_after_front_change_witness :
    consistent intEngine ⟨[.int 2, .int 1, .int 1], [2, 1, 1]⟩ ∧
    intEngine.fromPython (.float 1) = none ∧
    (∃ p, p < 3 ∧
      (∃ x, [PyVal.int 2, .int 1, .int 1][p]? = some x ∧ pyEq x (.float 1) = true) ∧
      (∀ j x, j < p → [PyVal.int 2, .int 1, .int 1][j]? = some x → pyEq x (.float 1) = false) ∧
      PyStructList_Remove intEngine ⟨[.int 2, .int 1, .int 1], [2, 1, 1]⟩ (.float 1)
        = .error .TypeError ⟨[PyVal.int 2, .int 1, .int 1].eraseIdx p, [2, 1, 1]⟩ ∧
      ([PyVal.int 2, .int 1, .int 1].eraseIdx p).length = [(2 : Int), 1, 1].length - 1 ∧
      0 < [(2 : Int), 1, 1].length) ∧
    PyStructList_Remove intEngine ⟨[.int 2, .int 1, .int 1], [2, 1, 1]⟩ (.float 1)
      = .error .TypeError ⟨[.int 2, .int 1], [2, 1, 1]⟩ :=
  have hc : consistent intEngine ⟨[.int 2, .int 1, .int 1], [2, 1, 1]⟩ := by
    rw [consistent_iff_map]; decide
  ⟨hc, by rfl,
    remove_failure_after_front_change intEngine ⟨[.int 2, .int 1, .int 1], [2, 1, 1]⟩
      (.float 1) hc ⟨.int 1, by decide, by decide⟩ (by rfl),
    by decide⟩

end RemoveFailure

end PyStructListImpl
